import Mathlib

/-!
# goeonet: a client for the EONET v3 REST API

A shallow embedding of `goeonet.go`, `events.go` and `client.go`, with the parts
of the Go standard library they call (`strings.Replace`, `strings.Split`,
`time.Parse` for the layout `2006-01-02`, `url.Values`, `url.URL.String`, and
`json.Unmarshal` on a JSON value already read).  The HTTP client and the JSON
decoder of a `Collection` are parameters of the operations.

A Go string is a sequence of bytes.  It is modelled as a `List Char` in which
every character stands for one byte (ASCII text reads as itself); all the
library functions embedded below work byte by byte.
-/

set_option linter.dupNamespace false

namespace Goeonet

/-- A Go string: the list of its bytes, each written as the character with
that code. -/
abbrev GoString := List Char

/-! ## `strings.Replace` and `strings.Split` -/

/-- Worker of `Replace`: scans the text from the left; `skip` counts the bytes
of a match just found that are still to be dropped.  `old` is not empty. -/
def replaceAux (old new : GoString) : Nat → GoString → GoString
  | _, [] => []
  | skip + 1, _ :: cs => replaceAux old new skip cs
  | 0, c :: cs =>
    if old.isPrefixOf (c :: cs) then new ++ replaceAux old new (old.length - 1) cs
    else c :: replaceAux old new 0 cs

/-- The call `strings.Replace(s, old, new, -1)` for a non-empty `old`: every
non-overlapping occurrence of `old`, found from the left, becomes `new`. -/
def Replace (s old new : GoString) : GoString :=
  replaceAux old new 0 s

/-- The call `strings.Split(s, sep)` for a one-byte separator: the pieces of `s`
between the separators; a text without separator gives one piece. -/
def Split (s : GoString) (sep : Char) : List GoString :=
  match s with
  | [] => [[]]
  | c :: cs =>
    if c = sep then [] :: Split cs sep
    else
      match Split cs sep with
      | [] => [[c]]
      | piece :: pieces => (c :: piece) :: pieces

/-! ## `Coordinates.UnmarshalJSON` (goeonet.go) -/

/-- The `Coordinates` struct: a list of rows of numbers of type `α` (the
`float64` of the source). -/
structure Coordinates (α : Type) where
  Coordinates : List (List α)
deriving DecidableEq, Repr

/-- The body of the `for ... range` loop of `UnmarshalJSON`, run over the
pieces left to visit; `coordinates` is the slice built so far.  `none` is the
run-time panic of `split[0]` or `split[1]` out of range. -/
def unmarshalLoop {α : Type} (ParseFloat : GoString → α) :
    List GoString → List (List α) → Option (List (List α))
  | [], coordinates => some coordinates
  | coords :: rest, coordinates =>
    let coordArr : List α := []
    let split := Split coords ','
    match split[0]?, split[1]? with
    | some s0, some s1 =>
      let coord1 := ParseFloat s0
      let coord2 := ParseFloat s1
      let coordArr := coordArr ++ [coord1]
      let coordArr := coordArr ++ [coord2]
      unmarshalLoop ParseFloat rest (coordinates ++ [coordArr])
    | _, _ => none

/-- The method `(c *Coordinates) UnmarshalJSON(data)`.  `ParseFloat s` is the
number that `strconv.ParseFloat(s, 64)` returns (its error is dropped by the
source).  The result is `none` when the call panics (`dataString[1:]` on an
empty text, `split[1]` on a piece without comma), and otherwise the new value
of the receiver with the returned error (`none` is Go's `nil`). -/
def UnmarshalJSON {α : Type} (ParseFloat : GoString → α) (data : GoString) :
    Option (Coordinates α × Option GoString) :=
  let dataString := Replace data " ".toList []
  let dataString := Replace dataString "],".toList []
  let dataString := Replace dataString "]".toList []
  let dataString := Replace dataString "[[".toList []
  let coordinates : List (List α) := []
  match dataString with
  | [] => none
  | _ :: tail =>
    match unmarshalLoop ParseFloat (Split tail '[') coordinates with
    | none => none
    | some coordinates => some (⟨coordinates⟩, none)

/-! ## `time.Parse` for the layout `2006-01-02`, and `isValidDate` -/

/-- The errors of `time.Parse` that the layout `2006-01-02` can produce. -/
inductive ParseError where
  | errBad
  | errAtoi
  | monthOutOfRange
  | extraText
  | dayOutOfRange
deriving DecidableEq, Repr

/-- The function `isDigit(s, i)` of package `time`: byte `i` of `s` exists and
is a decimal digit. -/
def isDigit (s : GoString) (i : Nat) : Bool :=
  match s[i]? with
  | none => false
  | some c => decide ('0' ≤ c) && decide (c ≤ '9')

/-- The value `int(s[i] - '0')` for a digit byte. -/
def digitAt (s : GoString) (i : Nat) : Nat :=
  (s.getD i '0').toNat - '0'.toNat

/-- The function `getnum(s, fixed)` of package `time`: a number of one or two
digits at the head of `s` (exactly two when `fixed`), with the rest. -/
def getnum (s : GoString) (fixed : Bool) : Except ParseError (Nat × GoString) :=
  if !isDigit s 0 then .error .errBad
  else if !isDigit s 1 then
    if fixed then .error .errBad
    else .ok (digitAt s 0, s.drop 1)
  else .ok (digitAt s 0 * 10 + digitAt s 1, s.drop 2)

/-- The function `leadingInt(s)` of package `time`, from the value `x` read so
far: the digits at the head of `s` as a number, with the rest; `none` is
`errLeadingInt` (overflow). -/
def leadingInt : GoString → Nat → Option (Nat × GoString)
  | [], x => some (x, [])
  | c :: cs, x =>
    if c < '0' ∨ c > '9' then some (x, c :: cs)
    else if x > 2 ^ 63 / 10 then none
    else
      let x1 := x * 10 + c.toNat - '0'.toNat
      if x1 > 2 ^ 63 then none else leadingInt cs x1

/-- The function `atoi(s)` of package `time`: an optional sign, then digits up
to the end of `s`. -/
def atoi (s : GoString) : Except ParseError Int :=
  let neg := match s with
    | c :: _ => decide (c = '-')
    | [] => false
  let s1 := match s with
    | c :: cs => if c = '-' ∨ c = '+' then cs else c :: cs
    | [] => []
  match leadingInt s1 0 with
  | none => .error .errAtoi
  | some (q, rem) =>
    if rem.length > 0 then .error .errAtoi
    else .ok (if neg then - (q : Int) else (q : Int))

/-- The function `skip(value, prefix)` of package `time` for a prefix without
space: the prefix is read off the head of `value`. -/
def skip : GoString → GoString → Except ParseError GoString
  | value, [] => .ok value
  | [], _ :: _ => .error .errBad
  | v :: value, p :: pre => if v ≠ p then .error .errBad else skip value pre

/-- The function `isLeap(year)` of package `time`. -/
def isLeap (year : Int) : Bool :=
  year % 4 = 0 && (year % 100 ≠ 0 || year % 400 = 0)

/-- The table `daysBefore` of package `time`: the days of a non-leap year
before the end of month `m`. -/
def daysBefore : List Nat :=
  [0, 31, 31 + 28, 31 + 28 + 31, 31 + 28 + 31 + 30, 31 + 28 + 31 + 30 + 31,
   31 + 28 + 31 + 30 + 31 + 30, 31 + 28 + 31 + 30 + 31 + 30 + 31,
   31 + 28 + 31 + 30 + 31 + 30 + 31 + 31, 31 + 28 + 31 + 30 + 31 + 30 + 31 + 31 + 30,
   31 + 28 + 31 + 30 + 31 + 30 + 31 + 31 + 30 + 31,
   31 + 28 + 31 + 30 + 31 + 30 + 31 + 31 + 30 + 31 + 30,
   31 + 28 + 31 + 30 + 31 + 30 + 31 + 31 + 30 + 31 + 30 + 31]

/-- The function `daysIn(m, year)` of package `time`, for a month in 1..12. -/
def daysIn (m : Nat) (year : Int) : Nat :=
  if m = 2 ∧ isLeap year = true then 29
  else daysBefore.getD m 0 - daysBefore.getD (m - 1) 0

/-- The constant `layoutISO`. -/
def layoutISO : GoString := "2006-01-02".toList

/-- The call `time.Parse(layoutISO, value)`, reduced to the date it reads
(year, month, day).  The layout splits into the chunks `2006` (stdLongYear),
`-` `01` (stdZeroMonth) and `-` `02` (stdZeroDay); the steps below are those
of `Parse` for these chunks, then the check for text left over and the check of
the day against the month. -/
def Parse (value : GoString) : Except ParseError (Int × Nat × Nat) :=
  -- stdLongYear
  if value.length < 4 ∨ isDigit value 0 = false then .error .errBad
  else
    let p := value.take 4
    let value := value.drop 4
    match atoi p with
    | .error e => .error e
    | .ok year =>
      -- literal "-", stdZeroMonth
      match skip value "-".toList with
      | .error e => .error e
      | .ok value =>
        match getnum value true with
        | .error e => .error e
        | .ok (month, value) =>
          if month ≤ 0 ∨ 12 < month then .error .monthOutOfRange
          else
            -- literal "-", stdZeroDay
            match skip value "-".toList with
            | .error e => .error e
            | .ok value =>
              match getnum value true with
              | .error e => .error e
              | .ok (day, value) =>
                if value.length ≠ 0 then .error .extraText
                else if day < 1 ∨ day > daysIn month year then .error .dayOutOfRange
                else .ok (year, month, day)

/-- The function `isValidDate(date)` of goeonet.go. -/
def isValidDate (date : GoString) : Bool :=
  match Parse date with
  | .error _ => false
  | .ok _ => true

/-! ### The calendar as the specification words it -/

/-- The Gregorian leap-year rule. -/
def specLeapYear (y : Nat) : Bool :=
  (y % 4 = 0 && y % 100 ≠ 0) || y % 400 = 0

/-- The number of days of month `m` of year `y` in the Gregorian calendar
(0 for a month outside 1..12). -/
def specDaysInMonth (y m : Nat) : Nat :=
  match m with
  | 1 => 31
  | 2 => if specLeapYear y then 29 else 28
  | 3 => 31
  | 4 => 30
  | 5 => 31
  | 6 => 30
  | 7 => 31
  | 8 => 31
  | 9 => 30
  | 10 => 31
  | 11 => 30
  | 12 => 31
  | _ => 0

/-- The value of a decimal digit. -/
def digitValue (c : Char) : Nat := c.toNat - 48

/-- A string has exactly the form `YYYY-MM-DD` (four digits, `-`, two digits,
`-`, two digits, nothing else) with a month in 1..12 and a day in 1..(days of
that month in that year). -/
def specISODate (d : GoString) : Bool :=
  match d with
  | [y1, y2, y3, y4, s1, m1, m2, s2, d1, d2] =>
    y1.isDigit && y2.isDigit && y3.isDigit && y4.isDigit && s1 = '-' &&
    m1.isDigit && m2.isDigit && s2 = '-' && d1.isDigit && d2.isDigit &&
    (let year := digitValue y1 * 1000 + digitValue y2 * 100 + digitValue y3 * 10 + digitValue y4
     let month := digitValue m1 * 10 + digitValue m2
     let day := digitValue d1 * 10 + digitValue d2
     decide (1 ≤ month) && decide (month ≤ 12) && decide (1 ≤ day) &&
     decide (day ≤ specDaysInMonth year month))
  | _ => false

/-! ## `net/url`: escaping, `Values`, `URL` -/

/-- The escaping modes of `net/url` that the builders reach. -/
inductive encoding where
  | encodePath
  | encodeHost
  | encodeQueryComponent
deriving DecidableEq, Repr

/-- The function `shouldEscape(c, mode)` of `net/url`. -/
def shouldEscape (c : Char) (mode : encoding) : Bool :=
  if ('a' ≤ c ∧ c ≤ 'z') ∨ ('A' ≤ c ∧ c ≤ 'Z') ∨ ('0' ≤ c ∧ c ≤ '9') then false
  else if mode = .encodeHost ∧
      c ∈ ['!', '$', '&', Char.ofNat 39, '(', ')', '*', '+', ',', ';', '=', ':', '[', ']',
        '<', '>', Char.ofNat 34] then false
  else if c ∈ ['-', '_', '.', '~'] then false
  else if c ∈ ['$', '&', '+', ',', '/', ':', ';', '=', '?', '@'] then
    match mode with
    | .encodePath => decide (c = '?')
    | .encodeQueryComponent => true
    | .encodeHost => true
  else true

/-- The table `upperhex` of `net/url`, at index `n % 16`. -/
def upperhex (n : Nat) : Char :=
  "0123456789ABCDEF".toList.getD (n % 16) '0'

/-- The function `escape(s, mode)` of `net/url`: a space becomes `+` in a query
component, a byte that `shouldEscape` names becomes `%XX`, any other stays. -/
def escape (s : GoString) (mode : encoding) : GoString :=
  s.flatMap fun c =>
    if c = ' ' ∧ mode = .encodeQueryComponent then ['+']
    else if shouldEscape c mode then ['%', upperhex (c.toNat / 16), upperhex c.toNat]
    else [c]

/-- The function `url.QueryEscape`. -/
def QueryEscape (s : GoString) : GoString :=
  escape s .encodeQueryComponent

/-- The type `url.Values`, a map from a key to a list of values, kept as an
association list with one entry per key. -/
abbrev Values := List (GoString × List GoString)

/-- The method `Values.Set(key, value)`: `v[key] = []string{value}`. -/
def Values.Set (v : Values) (key value : GoString) : Values :=
  match v with
  | [] => [(key, [value])]
  | (k, vs) :: rest =>
    if k = key then (k, [value]) :: rest else (k, vs) :: Values.Set rest key value

/-- The map access `v[key]` (an absent key gives the empty list). -/
def Values.index (v : Values) (key : GoString) : List GoString :=
  match v with
  | [] => []
  | (k, vs) :: rest => if k = key then vs else Values.index rest key

/-- The keys of the map. -/
def Values.keys (v : Values) : List GoString :=
  v.map Prod.fst

/-- The order of Go strings, `a <= b`: byte by byte. -/
def stringLE : GoString → GoString → Bool
  | [], _ => true
  | _ :: _, [] => false
  | a :: as, b :: bs =>
    if a.toNat < b.toNat then true
    else if b.toNat < a.toNat then false
    else stringLE as bs

/-- The keys in the order `slices.Sort(keys)` leaves them in `Encode`. -/
def Values.sortedKeys (v : Values) : List GoString :=
  v.keys.insertionSort (fun a b => stringLE a b = true)

/-- The (key, value) pairs in the order `Encode` writes them: keys ascending,
the values of a key in their order. -/
def Values.encodedPairs (v : Values) : List (GoString × GoString) :=
  v.sortedKeys.flatMap fun k => (v.index k).map fun value => (k, value)

/-- The method `Values.Encode()`: the pairs written `key=value`, both escaped,
with `&` between two pairs. -/
def Values.Encode (v : Values) : GoString :=
  "&".toList.intercalate
    (v.encodedPairs.map fun kv => QueryEscape kv.1 ++ '=' :: QueryEscape kv.2)

/-- The fields of `url.URL` that the builders set; every other field keeps its
zero value. -/
structure URL where
  Scheme : GoString
  Host : GoString
  Path : GoString
  RawQuery : GoString := []
deriving DecidableEq, Repr

/-- The method `u.Query()` on a URL whose `RawQuery` is still empty: the empty
map. -/
def URL.Query (_u : URL) : Values := []

/-- The method `u.EscapedPath()` when `RawPath` is empty. -/
def URL.EscapedPath (u : URL) : GoString :=
  if u.Path = "*".toList then "*".toList else escape u.Path .encodePath

/-- The method `u.String()` when `Opaque`, `User`, `Fragment`, `RawPath` are
empty and `ForceQuery`, `OmitHost` are false. -/
def URL.String (u : URL) : GoString :=
  let buf : GoString := []
  let buf := if u.Scheme ≠ [] then buf ++ u.Scheme ++ [':'] else buf
  let buf :=
    if u.Scheme ≠ [] ∨ u.Host ≠ [] then
      let buf := if u.Host ≠ [] ∨ u.Path ≠ [] then buf ++ "//".toList else buf
      if u.Host ≠ [] then buf ++ escape u.Host .encodeHost else buf
    else buf
  let path := u.EscapedPath
  let buf := if path ≠ [] ∧ path.head? ≠ some '/' ∧ u.Host ≠ [] then buf ++ ['/'] else buf
  let buf :=
    if buf.length = 0 ∧ ':' ∈ path.takeWhile (fun c => c ≠ '/') then buf ++ "./".toList
    else buf
  let buf := buf ++ path
  if u.RawQuery ≠ [] then buf ++ '?' :: u.RawQuery else buf

/-- The call `fmt.Sprint(n)` for an unsigned integer: its decimal digits. -/
def Sprint (n : Nat) : GoString :=
  Nat.toDigits 10 n

/-! ## The builders of goeonet.go -/

/-- The struct `eventsQuery`. -/
structure eventsQuery where
  source : GoString := []
  status : GoString := []
  limit : GoString := []
  days : GoString := []
  start : GoString := []
  «end» : GoString := []
  magID : GoString := []
  magMin : GoString := []
  magMax : GoString := []
  bbox : GoString := []
deriving DecidableEq, Repr

/-- The struct `categoriesQuery`. -/
structure categoriesQuery where
  category : GoString := []
  source : GoString := []
  status : GoString := []
  limit : GoString := []
  days : GoString := []
deriving DecidableEq, Repr

/-- The map `q` of `createEventsApiUrl` (goeonet.go) just before
`q.Encode()`. -/
def eventsValues (query : eventsQuery) : Values :=
  let u : URL := { Scheme := "https".toList, Host := "eonet.sci.gsfc.nasa.gov".toList,
                   Path := "/api/v3/events".toList }
  let q := u.Query
  let q := q.Set "source".toList query.source
  let q := q.Set "status".toList query.status
  let q := q.Set "limit".toList query.limit
  let q := q.Set "days".toList query.days
  let q :=
    if query.start ≠ [] then
      let q := q.Set "start".toList query.start
      q.Set "end".toList query.end
    else q
  let q := q.Set "magID".toList query.magID
  let q := q.Set "magMin".toList query.magMin
  let q := q.Set "magMax".toList query.magMax
  q.Set "bbox".toList query.bbox

/-- The function `createEventsApiUrl` of goeonet.go (the simplified builder). -/
def createEventsApiUrl (query : eventsQuery) : URL :=
  let u : URL := { Scheme := "https".toList, Host := "eonet.sci.gsfc.nasa.gov".toList,
                   Path := "/api/v3/events".toList }
  { u with RawQuery := (eventsValues query).Encode }

/-- The map `q` of `createCategoriesApiUrl` just before `q.Encode()`. -/
def categoriesValues (query : categoriesQuery) : Values :=
  let u : URL := { Scheme := "https".toList, Host := "eonet.sci.gsfc.nasa.gov".toList,
                   Path := "/api/v3/categories/".toList ++ query.category }
  let q := u.Query
  let q := q.Set "source".toList query.source
  let q := q.Set "status".toList query.status
  let q := q.Set "limit".toList query.limit
  q.Set "days".toList query.days

/-- The function `createCategoriesApiUrl` of goeonet.go. -/
def createCategoriesApiUrl (query : categoriesQuery) : URL :=
  let u : URL := { Scheme := "https".toList, Host := "eonet.sci.gsfc.nasa.gov".toList,
                   Path := "/api/v3/categories/".toList ++ query.category }
  { u with RawQuery := (categoriesValues query).Encode }

/-! ## The builders of events.go -/

namespace EventsGo

/-- The constant `baseEventsUrl`. -/
def baseEventsUrl : GoString := "https://eonet.sci.gsfc.nasa.gov/api/v3/events".toList

/-- The constant `baseGeoJsonEventsUrl`. -/
def baseGeoJsonEventsUrl : GoString :=
  "https://eonet.sci.gsfc.nasa.gov/api/v3/events/geojson".toList

/-- The struct `EventsQueryParameters`; `Limit` and `Days` are of type `uint`. -/
structure EventsQueryParameters where
  Source : GoString := []
  Status : GoString := []
  Limit : Nat := 0
  Days : Nat := 0
  Start : GoString := []
  End : GoString := []
  MagID : GoString := []
  MagMin : GoString := []
  MagMax : GoString := []
  Bbox : GoString := []
deriving DecidableEq, Repr

/-- The map `q` of `createEventsApiUrl` (events.go) just before `q.Encode()`. -/
def eventsValues (query : EventsQueryParameters) : Values :=
  let u : URL := { Scheme := "https".toList, Host := "eonet.sci.gsfc.nasa.gov".toList,
                   Path := "/api/v3/events".toList }
  let q := u.Query
  let q := if query.Source ≠ [] then q.Set "source".toList query.Source else q
  let q := if query.Status ≠ [] then q.Set "status".toList query.Status else q
  let q := if query.Limit > 0 then q.Set "limit".toList (Sprint query.Limit) else q
  let q := if query.Days > 0 then q.Set "days".toList (Sprint query.Days) else q
  let q :=
    if query.Start ≠ [] then
      let q := q.Set "start".toList query.Start
      if query.End ≠ [] then q.Set "end".toList query.End else q
    else q
  let q := if query.MagID ≠ [] then q.Set "magID".toList query.MagID else q
  let q := if query.MagMin ≠ [] then q.Set "magMin".toList query.MagMin else q
  let q := if query.MagMax ≠ [] then q.Set "magMax".toList query.MagMax else q
  if query.Bbox ≠ [] then q.Set "bbox".toList query.Bbox else q

/-- The function `createEventsApiUrl` of events.go (an omit-empty builder). -/
def createEventsApiUrl (query : EventsQueryParameters) : URL :=
  let u : URL := { Scheme := "https".toList, Host := "eonet.sci.gsfc.nasa.gov".toList,
                   Path := "/api/v3/events".toList }
  { u with RawQuery := (eventsValues query).Encode }

/-- The map `q` of `createGeoJsonEventsApiUrl` just before `q.Encode()`. -/
def geoJsonEventsValues (query : EventsQueryParameters) : Values :=
  let u : URL := { Scheme := "https".toList, Host := "eonet.sci.gsfc.nasa.gov".toList,
                   Path := "/api/v3/events/geojson".toList }
  let q := u.Query
  let q := if query.Source ≠ [] then q.Set "source".toList query.Source else q
  let q := if query.Status ≠ [] then q.Set "status".toList query.Status else q
  let q := if query.Limit > 0 then q.Set "limit".toList (Sprint query.Limit) else q
  let q := if query.Days > 0 then q.Set "days".toList (Sprint query.Days) else q
  let q :=
    if query.Start ≠ [] then
      let q := q.Set "start".toList query.Start
      if query.End ≠ [] then q.Set "end".toList query.End else q
    else q
  let q := if query.MagID ≠ [] then q.Set "magID".toList query.MagID else q
  let q := if query.MagMin ≠ [] then q.Set "magMin".toList query.MagMin else q
  let q := if query.MagMax ≠ [] then q.Set "magMax".toList query.MagMax else q
  if query.Bbox ≠ [] then q.Set "bbox".toList query.Bbox else q

/-- The function `createGeoJsonEventsApiUrl` of events.go (an omit-empty
builder). -/
def createGeoJsonEventsApiUrl (query : EventsQueryParameters) : URL :=
  let u : URL := { Scheme := "https".toList, Host := "eonet.sci.gsfc.nasa.gov".toList,
                   Path := "/api/v3/events/geojson".toList }
  { u with RawQuery := (geoJsonEventsValues query).Encode }

end EventsGo

/-! ## The transport and the operations of goeonet.go -/

/-- A Go `error` value met by the operations: one made by `errors.New`, or one
handed back by a collaborator (the HTTP client, the reader of the body, the
JSON decoder), of type `ε`. -/
inductive Error (ε : Type) where
  | New (text : GoString)
  | external (e : ε)
deriving DecidableEq, Repr

/-- The HTTP client: `Do url` is what `client.Do` returns for a GET request
to `url`, an error or a response; the response is given by what
`ioutil.ReadAll(response.Body)` returns for it, an error or the bytes. -/
structure HTTPClient (ε : Type) where
  Do : GoString → Except ε (Except ε GoString)

/-- The result of an operation that may send requests: the pair of values the
Go function returns (`.error e` is `nil, e`) and the URLs of the requests
handed to `client.Do`, in order. -/
abbrev Outcome (ε κ : Type) := Except (Error ε) κ × List GoString

/-- The function `sendRequest(url)`. -/
def sendRequest {ε : Type} (client : HTTPClient ε) (url : GoString) : Outcome ε GoString :=
  match client.Do url with
  | .error err => (.error (.external err), [url])
  | .ok response =>
    match response with
    | .error err => (.error (.external err), [url])
    | .ok responseData => (.ok responseData, [url])

/-- The function `queryEventsApi(url)`; `Unmarshal` is `json.Unmarshal` into a
`Collection` (of type `κ`). -/
def queryEventsApi {ε κ : Type} (client : HTTPClient ε) (Unmarshal : GoString → Except ε κ)
    (url : GoString) : Outcome ε κ :=
  match sendRequest client url with
  | (.error err, sent) => (.error err, sent)
  | (.ok responseData, sent) =>
    match Unmarshal responseData with
    | .error err => (.error (.external err), sent)
    | .ok collection => (.ok collection, sent)

/-- The function `GetEventsByDate(startDate, endDate)`. -/
def GetEventsByDate {ε κ : Type} (client : HTTPClient ε) (Unmarshal : GoString → Except ε κ)
    (startDate endDate : GoString) : Outcome ε κ :=
  if !isValidDate startDate then
    (.error (.New "the starting date is invalid".toList), [])
  else if endDate ≠ [] ∧ !isValidDate endDate then
    (.error (.New "the ending date is invalid".toList), [])
  else
    let url := createEventsApiUrl { start := startDate, «end» := endDate }
    match queryEventsApi client Unmarshal url.String with
    | (.error err, sent) => (.error err, sent)
    | (.ok collection, sent) => (.ok collection, sent)

/-- The function `GetRecentOpenEvents(limit)`. -/
def GetRecentOpenEvents {ε κ : Type} (client : HTTPClient ε)
    (Unmarshal : GoString → Except ε κ) (limit : GoString) : Outcome ε κ :=
  let url := createEventsApiUrl { limit := limit }
  match queryEventsApi client Unmarshal url.String with
  | (.error err, sent) => (.error err, sent)
  | (.ok collection, sent) => (.ok collection, sent)

/-- The function `queryCategoriesApi(url)`. -/
def queryCategoriesApi {ε κ : Type} (client : HTTPClient ε)
    (Unmarshal : GoString → Except ε κ) (url : GoString) : Outcome ε κ :=
  match sendRequest client url with
  | (.error err, sent) => (.error err, sent)
  | (.ok responseData, sent) =>
    match Unmarshal responseData with
    | .error err => (.error (.external err), sent)
    | .ok collection => (.ok collection, sent)

/-- The function `GetEventsByCategoryID(categoryID)`. -/
def GetEventsByCategoryID {ε κ : Type} (client : HTTPClient ε)
    (Unmarshal : GoString → Except ε κ) (categoryID : GoString) : Outcome ε κ :=
  let url := createCategoriesApiUrl { category := categoryID }
  match queryCategoriesApi client Unmarshal url.String with
  | (.error err, sent) => (.error err, sent)
  | (.ok collection, sent) => (.ok collection, sent)

/-! ## The JSON texts of coordinates that the decoder is given -/

/-- A number token as far as its bytes go: not empty, and made of digits, signs,
the point and the exponent letters (every JSON number is one). -/
def isNumberToken (t : GoString) : Bool :=
  !t.isEmpty &&
    t.all fun c => c.isDigit || c = '-' || c = '+' || c = '.' || c = 'e' || c = 'E'

/-- The text with its space characters taken out. -/
def withoutSpaces (s : GoString) : GoString :=
  s.filter fun c => c ≠ ' '

/-- The JSON text `[x,y]` of a pair of tokens. -/
def pairText (p : GoString × GoString) : GoString :=
  '[' :: p.1 ++ ',' :: p.2 ++ [']']

/-- The JSON text `[x1,y1],...,[xn,yn]` of pairs of tokens, a comma between
two pairs. -/
def pairsText : List (GoString × GoString) → GoString
  | [] => []
  | [p] => pairText p
  | p :: q :: rest => pairText p ++ ',' :: pairsText (q :: rest)

/-- The JSON text `[[[x1,y1],...,[xn,yn]]]` of a polygon with a single ring. -/
def ringText (ps : List (GoString × GoString)) : GoString :=
  "[[".toList ++ pairsText ps ++ "]]".toList

/-- The bytes `[x1,y1[x2,y2...` that are left of the pairs once every closing
bracket, and the comma after it, is removed. -/
def openPairs (ps : List (GoString × GoString)) : GoString :=
  ps.flatMap fun p => '[' :: (p.1 ++ ',' :: p.2)

/-! ## The other operations of goeonet.go, and those of events.go and client.go -/

/-- The constant `baseCategoriesUrl`. -/
def baseCategoriesUrl : GoString := "https://eonet.sci.gsfc.nasa.gov/api/v3/categories".toList

/-- The constant `baseLayersUrl`. -/
def baseLayersUrl : GoString := "https://eonet.sci.gsfc.nasa.gov/api/v3/layers".toList

/-- The constant `baseSourcesUrl`. -/
def baseSourcesUrl : GoString := "https://eonet.sci.gsfc.nasa.gov/api/v3/sources".toList

/-- The function `GetEventsBySourceID(sourceID)`. -/
def GetEventsBySourceID {ε κ : Type} (client : HTTPClient ε)
    (Unmarshal : GoString → Except ε κ) (sourceID : GoString) : Outcome ε κ :=
  let url := createEventsApiUrl { source := sourceID }
  match queryEventsApi client Unmarshal url.String with
  | (.error err, sent) => (.error err, sent)
  | (.ok collection, sent) => (.ok collection, sent)

/-- The function `querySourcesApi()`. -/
def querySourcesApi {ε κ : Type} (client : HTTPClient ε)
    (Unmarshal : GoString → Except ε κ) : Outcome ε κ :=
  match sendRequest client baseSourcesUrl with
  | (.error err, sent) => (.error err, sent)
  | (.ok responseData, sent) =>
    match Unmarshal responseData with
    | .error err => (.error (.external err), sent)
    | .ok collection => (.ok collection, sent)

/-- The function `GetSources()`. -/
def GetSources {ε κ : Type} (client : HTTPClient ε)
    (Unmarshal : GoString → Except ε κ) : Outcome ε κ :=
  match querySourcesApi client Unmarshal with
  | (.error err, sent) => (.error err, sent)
  | (.ok collection, sent) => (.ok collection, sent)

/-- The function `GetCategories()`. -/
def GetCategories {ε κ : Type} (client : HTTPClient ε)
    (Unmarshal : GoString → Except ε κ) : Outcome ε κ :=
  match queryCategoriesApi client Unmarshal baseCategoriesUrl with
  | (.error err, sent) => (.error err, sent)
  | (.ok collection, sent) => (.ok collection, sent)

/-- The function `queryLayersApi(query)`. -/
def queryLayersApi {ε κ : Type} (client : HTTPClient ε)
    (Unmarshal : GoString → Except ε κ) (query : GoString) : Outcome ε κ :=
  match sendRequest client (baseLayersUrl ++ query) with
  | (.error err, sent) => (.error err, sent)
  | (.ok responseData, sent) =>
    match Unmarshal responseData with
    | .error err => (.error (.external err), sent)
    | .ok collection => (.ok collection, sent)

/-- The function `sendRequestToEonetApi(url)` of client.go. -/
def sendRequestToEonetApi {ε : Type} (client : HTTPClient ε) (url : GoString) :
    Outcome ε GoString :=
  match client.Do url with
  | .error err => (.error (.external err), [url])
  | .ok response =>
    match response with
    | .error err => (.error (.external err), [url])
    | .ok responseData => (.ok responseData, [url])

namespace EventsGo

/-- The function `GetEvents(query)` of events.go: the bytes of the body. -/
def GetEvents {ε : Type} (client : HTTPClient ε) (query : EventsQueryParameters) :
    Outcome ε GoString :=
  let url := createEventsApiUrl query
  match sendRequestToEonetApi client url.String with
  | (.error err, sent) => (.error err, sent)
  | (.ok responseData, sent) => (.ok responseData, sent)

/-- The function `GetGeoJsonEvents(query)` of events.go: the bytes of the body. -/
def GetGeoJsonEvents {ε : Type} (client : HTTPClient ε) (query : EventsQueryParameters) :
    Outcome ε GoString :=
  let url := createGeoJsonEventsApiUrl query
  match sendRequestToEonetApi client url.String with
  | (.error err, sent) => (.error err, sent)
  | (.ok responseData, sent) => (.ok responseData, sent)

end EventsGo

/-! ## The order of the keys of a query -/

/-- The order of Go strings, `a < b`. -/
def stringLess (a b : GoString) : Bool :=
  !stringLE b a

/-- The keys of the pairs that `Encode` writes, in the order it writes them. -/
def Values.encodedKeys (v : Values) : List GoString :=
  v.encodedPairs.map Prod.fst

/-- The shape of a map that `Set` alone has filled: one entry per key, one
value per entry. -/
def Values.wellFormed (v : Values) : Prop :=
  v.keys.Nodup ∧ ∀ e ∈ v, ∃ x, e.2 = [x]

/-! ## A number parser for examples -/

/-- A text of one or more decimal digits. -/
def isDigits (s : GoString) : Bool :=
  !s.isEmpty && s.all Char.isDigit

/-- A parser of unsigned decimal integers, which stands for `strconv.ParseFloat`
in examples: the value of a text of digits, and 0 for any other text. -/
def parseDigits (s : GoString) : Nat :=
  if isDigits s then s.foldl (fun n c => n * 10 + digitValue c) 0 else 0

/-! ## `json.Unmarshal` into a `Collection` -/

/-- A JSON value, as the scanner of `encoding/json` reads it off a text; a
number keeps its text, the members of an object keep their order. -/
inductive Json where
  | null
  | bool (b : Bool)
  | number (text : GoString)
  | string (s : GoString)
  | array (items : List Json)
  | object (members : List (GoString × Json))

/-- The errors of `json.Unmarshal`. -/
inductive JsonError where
  | SyntaxError
  | UnmarshalTypeError
deriving DecidableEq, Repr

/-- The struct `Category` of goeonet.go. -/
structure Category where
  Id : GoString := []
  Title : GoString := []
  Link : GoString := []
  Description : GoString := []
  Layers : GoString := []
deriving DecidableEq, Repr

/-- The struct `Collection` of goeonet.go; `η` is the type `Event` and `σ` the
type `Source`. -/
structure Collection (η σ : Type) where
  Title : GoString := []
  Description : GoString := []
  Link : GoString := []
  Events : List η := []
  Categories : List Category := []
  Sources : List σ := []

/-- The method `saveError` of the decoder: the first error is kept. -/
def saveError (saved new : Option JsonError) : Option JsonError :=
  match saved with
  | some e => some e
  | none => new

/-- The decoding of a JSON value into a field of type `string` that holds
`old`: a JSON string is stored, `null` changes nothing, any other value is
skipped with an `UnmarshalTypeError`. -/
def decodeString (old : GoString) (value : Json) : GoString × Option JsonError :=
  match value with
  | .string s => (s, none)
  | .null => (old, none)
  | _ => (old, some .UnmarshalTypeError)

/-- The field that a key of a JSON object goes to: the field whose `json` tag
is the key, and failing that the first field whose tag equals the key under
`equalFold` (the folding of case of `encoding/json`). -/
def fieldIndex (equalFold : GoString → GoString → Bool) (tags : List GoString)
    (key : GoString) : Option Nat :=
  match tags.findIdx? (fun tag => tag = key) with
  | some i => some i
  | none => tags.findIdx? (fun tag => equalFold tag key)

/-- The `json` tags of the fields of `Category`, in the order of the struct. -/
def categoryTags : List GoString :=
  ["id".toList, "title".toList, "link".toList, "description".toList, "layers".toList]

/-- The `json` tags of the fields of `Collection`, in the order of the struct. -/
def collectionTags : List GoString :=
  ["title".toList, "description".toList, "link".toList, "events".toList,
   "categories".toList, "sources".toList]

/-- The decoding of one member of a JSON object into a `Category`; a key that
matches no field is skipped. -/
def setCategoryField (equalFold : GoString → GoString → Bool) (c : Category)
    (key : GoString) (value : Json) : Category × Option JsonError :=
  match fieldIndex equalFold categoryTags key with
  | some 0 => ({ c with Id := (decodeString c.Id value).1 }, (decodeString c.Id value).2)
  | some 1 =>
    ({ c with Title := (decodeString c.Title value).1 }, (decodeString c.Title value).2)
  | some 2 => ({ c with Link := (decodeString c.Link value).1 }, (decodeString c.Link value).2)
  | some 3 =>
    ({ c with Description := (decodeString c.Description value).1 },
      (decodeString c.Description value).2)
  | some 4 =>
    ({ c with Layers := (decodeString c.Layers value).1 }, (decodeString c.Layers value).2)
  | _ => (c, none)

/-- The decoding of the members of a JSON object into a `Category`, one after
the other. -/
def decodeCategoryMembers (equalFold : GoString → GoString → Bool) :
    List (GoString × Json) → Category × Option JsonError → Category × Option JsonError
  | [], acc => acc
  | member :: rest, acc =>
    decodeCategoryMembers equalFold rest
      ((setCategoryField equalFold acc.1 member.1 member.2).1,
        saveError acc.2 (setCategoryField equalFold acc.1 member.1 member.2).2)

/-- The decoding of a JSON value into a `Category` that holds `c`. -/
def decodeCategory (equalFold : GoString → GoString → Bool) (c : Category) (value : Json) :
    Category × Option JsonError :=
  match value with
  | .object members => decodeCategoryMembers equalFold members (c, none)
  | .null => (c, none)
  | _ => (c, some .UnmarshalTypeError)

/-- The decoding of the items of a JSON array into a slice of `Category` that
holds `old`: item `i` is decoded into element `i` of the slice, a zero
`Category` when the slice is shorter. -/
def decodeCategoryItems (equalFold : GoString → GoString → Bool) :
    List Category → List Json → List Category × Option JsonError
  | _, [] => ([], none)
  | old, item :: rest =>
    ((decodeCategory equalFold (old.headD {}) item).1 ::
        (decodeCategoryItems equalFold old.tail rest).1,
      saveError (decodeCategory equalFold (old.headD {}) item).2
        (decodeCategoryItems equalFold old.tail rest).2)

/-- The decoding of a JSON value into a field of type `[]Category`. -/
def decodeCategories (equalFold : GoString → GoString → Bool) (old : List Category)
    (value : Json) : List Category × Option JsonError :=
  match value with
  | .array items => decodeCategoryItems equalFold old items
  | .null => ([], none)
  | _ => (old, some .UnmarshalTypeError)

/-- The decoders of the fields `Events` and `Sources`, which the claims on
categories do not reach: each gives the new slice and the error to save, or
`none` when the decoding panics (as `Coordinates.UnmarshalJSON` can). -/
structure FieldDecoders (η σ : Type) where
  events : List η → Json → Option (List η × Option JsonError)
  sources : List σ → Json → Option (List σ × Option JsonError)

/-- The decoding of one member of a JSON object into a `Collection`. -/
def setCollectionField {η σ : Type} (equalFold : GoString → GoString → Bool)
    (decoders : FieldDecoders η σ) (c : Collection η σ) (key : GoString) (value : Json) :
    Option (Collection η σ × Option JsonError) :=
  match fieldIndex equalFold collectionTags key with
  | some 0 =>
    some ({ c with Title := (decodeString c.Title value).1 }, (decodeString c.Title value).2)
  | some 1 =>
    some ({ c with Description := (decodeString c.Description value).1 },
      (decodeString c.Description value).2)
  | some 2 =>
    some ({ c with Link := (decodeString c.Link value).1 }, (decodeString c.Link value).2)
  | some 3 =>
    match decoders.events c.Events value with
    | none => none
    | some r => some ({ c with Events := r.1 }, r.2)
  | some 4 =>
    some ({ c with Categories := (decodeCategories equalFold c.Categories value).1 },
      (decodeCategories equalFold c.Categories value).2)
  | some 5 =>
    match decoders.sources c.Sources value with
    | none => none
    | some r => some ({ c with Sources := r.1 }, r.2)
  | _ => some (c, none)

/-- The decoding of the members of a JSON object into a `Collection`, one
after the other. -/
def decodeCollectionMembers {η σ : Type} (equalFold : GoString → GoString → Bool)
    (decoders : FieldDecoders η σ) :
    List (GoString × Json) → Collection η σ × Option JsonError →
      Option (Collection η σ × Option JsonError)
  | [], acc => some acc
  | member :: rest, acc =>
    match setCollectionField equalFold decoders acc.1 member.1 member.2 with
    | none => none
    | some r => decodeCollectionMembers equalFold decoders rest (r.1, saveError acc.2 r.2)

/-- The call `json.Unmarshal(data, &collection)` on a zero `Collection`, as
`queryLayersApi` and the other query functions make it.  `parse` reads the JSON
text (`none` for a text that is not valid JSON).  The result is `none` when the
call panics, and otherwise the error, or the collection when the error is
nil. -/
def Unmarshal {η σ : Type} (parse : GoString → Option Json)
    (equalFold : GoString → GoString → Bool) (decoders : FieldDecoders η σ)
    (data : GoString) : Option (Except JsonError (Collection η σ)) :=
  match parse data with
  | none => some (.error .SyntaxError)
  | some (.object members) =>
    match decodeCollectionMembers equalFold decoders members ({}, none) with
    | none => none
    | some (collection, none) => some (.ok collection)
    | some (_, some err) => some (.error err)
  | some .null => some (.ok {})
  | some _ => some (.error .UnmarshalTypeError)

/-- The JSON object `{"id": id, "title": title}` of a category. -/
def categoryJson (p : GoString × GoString) : Json :=
  .object [("id".toList, .string p.1), ("title".toList, .string p.2)]

/-- The JSON object of a body with a title, a link and categories. -/
def categoriesBody (title link : GoString) (categories : List (GoString × GoString)) : Json :=
  .object [("title".toList, .string title), ("link".toList, .string link),
    ("categories".toList, .array (categories.map categoryJson))]

/-- A body of the layers endpoint for one category, as text: the category
holds its layers in an array. -/
def layersBodyText : GoString :=
  ("\x7b\x22title\x22:\x22EONET Web Service Layers\x22," ++
    "\x22link\x22:\x22https://eonet.sci.gsfc.nasa.gov/api/v3/layers\x22," ++
    "\x22categories\x22:[\x7b\x22id\x22:\x228\x22,\x22title\x22:\x22Wildfires\x22," ++
    "\x22layers\x22:[\x7b\x22name\x22:\x22MODIS_Terra_CorrectedReflectance_TrueColor\x22" ++
    "\x7d]\x7d]\x7d").toList

/-- The JSON object of the category of `layersBodyText`. -/
def layersCategoryJson : Json :=
  .object [("id".toList, .string "8".toList), ("title".toList, .string "Wildfires".toList),
    ("layers".toList,
      .array [.object [("name".toList,
        .string "MODIS_Terra_CorrectedReflectance_TrueColor".toList)]])]

/-- The JSON value that `layersBodyText` reads as. -/
def layersBodyJson : Json :=
  .object [("title".toList, .string "EONET Web Service Layers".toList),
    ("link".toList, .string "https://eonet.sci.gsfc.nasa.gov/api/v3/layers".toList),
    ("categories".toList, .array [layersCategoryJson])]

/-! ## The JSON texts of nested arrays of numbers -/

/-- The text with its JSON whitespace (space, tab, line feed, carriage return)
taken out. -/
def withoutWhitespace (s : GoString) : GoString :=
  s.filter fun c => !(c = ' ' || c = '\t' || c = '\n' || c = '\r')

/-- The JSON texts, written without whitespace, of the arrays of numbers nested
to any depth in which every array is non-empty and every innermost array holds
at least two numbers: `[n1,...,nk]` with k at least 2, and `[a1,...,am]` with m
at least 1 and every `ai` such a text. -/
inductive NestedNumbers : GoString → Prop where
  | innermost (tokens : List GoString) (h2 : 2 ≤ tokens.length)
      (htok : ∀ t ∈ tokens, isNumberToken t = true) :
      NestedNumbers ('[' :: ",".toList.intercalate tokens ++ [']'])
  | outer (items : List GoString) (hne : items ≠ [])
      (hitems : ∀ s ∈ items, NestedNumbers s) :
      NestedNumbers ('[' :: ",".toList.intercalate items ++ [']'])

/-- The text left by the removal of every `],` and then of every `]`. -/
def closeStripped (s : GoString) : GoString :=
  (replaceAux [']', ','] [] 0 s).filter fun d => d ≠ ']'

/-- The text without a comma at its head. -/
def dropLeadingComma (s : GoString) : GoString :=
  match s with
  | [] => []
  | c :: r => if c = ',' then r else c :: r

/-- A run of opening brackets followed by the numbers of an innermost array:
the number of brackets, and the numbers with their commas. -/
abbrev Block := Nat × GoString

/-- The text of a list of blocks. -/
def blocksText (blocks : List Block) : GoString :=
  blocks.flatMap fun b => List.replicate b.1 '[' ++ b.2

/-- The text of a list of blocks once every `[[` is removed: a run keeps one
bracket when its length is odd and none when it is even. -/
def reducedText (blocks : List Block) : GoString :=
  blocks.flatMap fun b => (if b.1 % 2 = 1 then ['['] else []) ++ b.2

/-- The numbers of a block hold no bracket, and a comma after their first
byte. -/
def goodBlock (b : Block) : Prop :=
  '[' ∉ b.2 ∧ ']' ∉ b.2 ∧ ∃ c rest, b.2 = c :: rest ∧ ',' ∈ rest

/-! ## Theorems: `Coordinates.UnmarshalJSON` -/

theorem unmarshalLoop_rows {α : Type} (ParseFloat : GoString → α) :
    ∀ (pieces : List GoString) (acc out : List (List α)),
      (∀ row ∈ acc, row.length = 2) →
      unmarshalLoop ParseFloat pieces acc = some out →
      ∀ row ∈ out, row.length = 2 := by
  intro pieces
  induction pieces with
  | nil =>
    intro acc out hacc h
    simp only [unmarshalLoop, Option.some.injEq] at h
    subst h
    exact hacc
  | cons coords rest ih =>
    intro acc out hacc h
    unfold unmarshalLoop at h
    simp only at h
    split at h
    · refine ih _ out ?_ h
      intro row hrow
      rcases List.mem_append.1 hrow with hr | hr
      · exact hacc row hr
      · simp only [List.nil_append, List.singleton_append, List.mem_singleton] at hr
        subst hr
        rfl
    · exact absurd h (by simp)

/-- C1 (the code at the failing input): the list of pairs `[[10.5, 20.1]]` is
decoded to one pair whose first number is parsed from `0.5`, the first byte of
the text being dropped; and `[[1,2],[3,4]]` gives a first number parsed from
the empty text. -/
theorem unmarshal_list_of_pairs_loses_first_byte {α : Type} (ParseFloat : GoString → α) :
    UnmarshalJSON ParseFloat "[[10.5, 20.1]]".toList =
      some (⟨[[ParseFloat "0.5".toList, ParseFloat "20.1".toList]]⟩, none) ∧
    UnmarshalJSON ParseFloat "[[1,2],[3,4]]".toList =
      some (⟨[[ParseFloat [], ParseFloat "2".toList],
              [ParseFloat "3".toList, ParseFloat "4".toList]]⟩, none) :=
  ⟨rfl, rfl⟩

/-- C4: whenever `UnmarshalJSON` returns, the error is nil and every row of the
decoded `Coordinates` has exactly two numbers. -/
theorem unmarshal_rows_are_pairs {α : Type} (ParseFloat : GoString → α) (data : GoString)
    (c : Coordinates α) (err : Option GoString)
    (h : UnmarshalJSON ParseFloat data = some (c, err)) :
    err = none ∧ ∀ row ∈ c.Coordinates, row.length = 2 := by
  unfold UnmarshalJSON at h
  simp only at h
  split at h
  · exact absurd h (by simp)
  · split at h
    · exact absurd h (by simp)
    · rename_i out hout
      simp only [Option.some.injEq, Prod.mk.injEq] at h
      obtain ⟨hc, herr⟩ := h
      subst hc
      refine ⟨herr.symm, ?_⟩
      exact unmarshalLoop_rows ParseFloat _ [] out (by simp) hout

theorem unmarshal_rows_are_pairs_witness :
    UnmarshalJSON (fun s => s) "[[[1,2], [3,4]]]".toList =
        some (⟨[["1".toList, "2".toList], ["3".toList, "4".toList]]⟩, none) ∧
      ((none : Option GoString) = none ∧
        ∀ row ∈ [["1".toList, "2".toList], ["3".toList, "4".toList]], row.length = 2) :=
  ⟨by decide,
   unmarshal_rows_are_pairs (fun s => s) "[[[1,2], [3,4]]]".toList
     ⟨[["1".toList, "2".toList], ["3".toList, "4".toList]]⟩ none (by decide)⟩

theorem replaceAux_single (c : Char) (s : GoString) :
    replaceAux [c] [] 0 s = s.filter (fun d => d ≠ c) := by
  induction s with
  | nil => simp [replaceAux]
  | cons d cs ih =>
    by_cases h : d = c
    · subst h
      simp [replaceAux, ih]
    · have h2 : ¬ c = d := fun e => h e.symm
      simp [replaceAux, ih, h, h2]

theorem replaceAux_skip_token (o : Char) (os new t r : GoString) (h : o ∉ t) :
    replaceAux (o :: os) new 0 (t ++ r) = t ++ replaceAux (o :: os) new 0 r := by
  induction t with
  | nil => simp
  | cons d ds ih =>
    have hd : ¬ o = d := fun e => h (by simp [e])
    have hds : o ∉ ds := fun e => h (by simp [e])
    simp [replaceAux, hd, ih hds]

theorem Split_token_sep (sep : Char) (t r : GoString) (h : sep ∉ t) :
    Split (t ++ sep :: r) sep = t :: Split r sep := by
  induction t with
  | nil => simp [Split]
  | cons d ds ih =>
    have hd : ¬ d = sep := fun e => h (by simp [e])
    have hds : sep ∉ ds := fun e => h (by simp [e])
    simp [Split, hd, ih hds]

theorem Split_token (sep : Char) (t : GoString) (h : sep ∉ t) :
    Split t sep = [t] := by
  induction t with
  | nil => simp [Split]
  | cons d ds ih =>
    have hd : ¬ d = sep := fun e => h (by simp [e])
    have hds : sep ∉ ds := fun e => h (by simp [e])
    simp [Split, hd, ih hds]

theorem token_chars (t : GoString) (h : isNumberToken t = true) :
    ' ' ∉ t ∧ '[' ∉ t ∧ ']' ∉ t ∧ ',' ∉ t := by
  have hall : ∀ c ∈ t,
      (c.isDigit || c = '-' || c = '+' || c = '.' || c = 'e' || c = 'E') = true := by
    simp only [isNumberToken, Bool.and_eq_true, List.all_eq_true] at h
    exact h.2
  refine ⟨fun hm => ?_, fun hm => ?_, fun hm => ?_, fun hm => ?_⟩ <;>
    exact absurd (hall _ hm) (by decide)

theorem filter_token (c : Char) (t : GoString) (h : c ∉ t) :
    t.filter (fun d => d ≠ c) = t := by
  rw [List.filter_eq_self]
  intro d hd
  have : d ≠ c := fun e => h (e ▸ hd)
  simpa using this

theorem UnmarshalJSON_unfold {α : Type} (ParseFloat : GoString → α) (data : GoString) :
    UnmarshalJSON ParseFloat data =
      match replaceAux ['[', '['] [] 0
          ((replaceAux [']', ','] [] 0 (withoutSpaces data)).filter (fun d => d ≠ ']')) with
      | [] => none
      | _ :: tail =>
        match unmarshalLoop ParseFloat (Split tail '[') [] with
        | none => none
        | some coordinates => some (⟨coordinates⟩, none) := by
  have h1 : ∀ s, Replace s " ".toList [] = withoutSpaces s := fun s => replaceAux_single ' ' s
  have h2 : ∀ s, Replace s "]".toList [] = s.filter (fun d => d ≠ ']') :=
    fun s => replaceAux_single ']' s
  unfold UnmarshalJSON
  simp only [h1, h2]
  rfl

theorem unmarshalLoop_pair {α : Type} (ParseFloat : GoString → α) (x y : GoString)
    (hx : ',' ∉ x) (hy : ',' ∉ y) (rest : List GoString) (acc : List (List α)) :
    unmarshalLoop ParseFloat ((x ++ ',' :: y) :: rest) acc =
      unmarshalLoop ParseFloat rest (acc ++ [[ParseFloat x, ParseFloat y]]) := by
  rw [unmarshalLoop]
  simp [Split_token_sep ',' x y hx, Split_token ',' y hy]

theorem replace_open_pair (x r : GoString) (hx : '[' ∉ x) (hr : r.head? ≠ some '[') :
    replaceAux ['[', '['] [] 0 ('[' :: x ++ r) =
      '[' :: x ++ replaceAux ['[', '['] [] 0 r := by
  have hskip := replaceAux_skip_token '[' ['['] [] x r hx
  have hhead : (x ++ r).head? ≠ some '[' := by
    cases x with
    | nil => simpa using hr
    | cons c cs =>
      have : c ≠ '[' := fun e => hx (by simp [e])
      simpa using this
  have hpre : List.isPrefixOf ['[', '['] ('[' :: (x ++ r)) = false := by
    cases hxr : x ++ r with
    | nil => rfl
    | cons c cs =>
      rw [hxr] at hhead
      have : c ≠ '[' := by simpa using hhead
      have h2 : ¬ '[' = c := fun e => this e.symm
      simp [List.isPrefixOf, h2]
  rw [List.cons_append, replaceAux, hpre]
  simp [hskip]

/-- C2: a single pair `[x, y]` of number tokens, with any space characters
added, is decoded without error to the one-element list `[[parse x, parse y]]`;
so `[10.5, 20.1]` gives `[[10.5, 20.1]]`. -/
theorem unmarshal_single_pair {α : Type} (ParseFloat : GoString → α) (data x y : GoString)
    (hx : isNumberToken x = true) (hy : isNumberToken y = true)
    (hdata : withoutSpaces data = pairText (x, y)) :
    UnmarshalJSON ParseFloat data = some (⟨[[ParseFloat x, ParseFloat y]]⟩, none) := by
  obtain ⟨-, hx1, hx2, hx3⟩ := token_chars x hx
  obtain ⟨-, hy1, hy2, hy3⟩ := token_chars y hy
  have hbody : ']' ∉ '[' :: (x ++ ',' :: y) := by simp [hx2, hy2]
  have hA : replaceAux [']', ','] [] 0 (withoutSpaces data) =
      ('[' :: (x ++ ',' :: y)) ++ [']'] := by
    rw [hdata]
    have := replaceAux_skip_token ']' [','] [] ('[' :: (x ++ ',' :: y)) [']'] hbody
    simpa [pairText, replaceAux] using this
  have hB : (('[' :: (x ++ ',' :: y)) ++ [']']).filter (fun d => d ≠ ']') =
      '[' :: (x ++ ',' :: y) := by
    rw [List.filter_append, filter_token ']' _ hbody]
    simp
  have hC : replaceAux ['[', '['] [] 0 ('[' :: (x ++ ',' :: y)) = '[' :: (x ++ ',' :: y) := by
    have h1 := replace_open_pair x (',' :: y) hx1 (by simp)
    have h2 := replaceAux_skip_token '[' ['['] [] (',' :: y) [] (by simp [hy1])
    simp only [List.append_nil] at h2
    rw [h2] at h1
    simpa [replaceAux] using h1
  have hD : Split (x ++ ',' :: y) '[' = [x ++ ',' :: y] :=
    Split_token '[' _ (by simp [hx1, hy1])
  rw [UnmarshalJSON_unfold, hA, hB, hC]
  simp only [hD, unmarshalLoop_pair ParseFloat x y hx3 hy3, unmarshalLoop, List.nil_append]

theorem unmarshal_single_pair_witness :
    (isNumberToken "10.5".toList = true ∧ isNumberToken "20.1".toList = true ∧
      withoutSpaces "[10.5, 20.1]".toList = pairText ("10.5".toList, "20.1".toList)) ∧
    UnmarshalJSON (fun s => s) "[10.5, 20.1]".toList =
      some (⟨[["10.5".toList, "20.1".toList]]⟩, none) :=
  ⟨by decide,
   unmarshal_single_pair (fun s => s) "[10.5, 20.1]".toList "10.5".toList "20.1".toList
     (by decide) (by decide) (by decide)⟩

theorem replace_close_pairs (ps : List (GoString × GoString))
    (hps : ∀ p ∈ ps, isNumberToken p.1 = true ∧ isNumberToken p.2 = true) :
    (replaceAux [']', ','] [] 0 (pairsText ps ++ [']', ']'])).filter (fun d => d ≠ ']') =
      openPairs ps := by
  induction ps with
  | nil => simp [pairsText, openPairs, replaceAux]
  | cons p rest ih =>
    obtain ⟨hx, hy⟩ := hps p (by simp)
    obtain ⟨-, -, hx2, -⟩ := token_chars p.1 hx
    obtain ⟨-, -, hy2, -⟩ := token_chars p.2 hy
    have hbody : ']' ∉ '[' :: (p.1 ++ ',' :: p.2) := by simp [hx2, hy2]
    have hopen : openPairs (p :: rest) = ('[' :: (p.1 ++ ',' :: p.2)) ++ openPairs rest := by
      simp [openPairs]
    cases rest with
    | nil =>
      have h1 := replaceAux_skip_token ']' [','] [] ('[' :: (p.1 ++ ',' :: p.2))
        [']', ']', ']'] hbody
      have h2 : pairsText [p] ++ [']', ']'] =
          ('[' :: (p.1 ++ ',' :: p.2)) ++ [']', ']', ']'] := by
        simp [pairsText, pairText]
      rw [h2, h1, List.filter_append, filter_token ']' _ hbody, hopen]
      simp [replaceAux, openPairs]
    | cons q rest2 =>
      have h1 := replaceAux_skip_token ']' [','] [] ('[' :: (p.1 ++ ',' :: p.2))
        (']' :: ',' :: (pairsText (q :: rest2) ++ [']', ']'])) hbody
      have h2 : pairsText (p :: q :: rest2) ++ [']', ']'] =
          ('[' :: (p.1 ++ ',' :: p.2)) ++
            (']' :: ',' :: (pairsText (q :: rest2) ++ [']', ']'])) := by
        simp [pairsText, pairText]
      have h3 : replaceAux [']', ','] [] 0
            (']' :: ',' :: (pairsText (q :: rest2) ++ [']', ']'])) =
          replaceAux [']', ','] [] 0 (pairsText (q :: rest2) ++ [']', ']']) := by
        simp [replaceAux]
      rw [h2, h1, h3, List.filter_append, filter_token ']' _ hbody, hopen,
        ih (fun r hr => hps r (by simp [hr]))]

theorem replace_open_pairs (ps : List (GoString × GoString))
    (hps : ∀ p ∈ ps, isNumberToken p.1 = true ∧ isNumberToken p.2 = true) :
    replaceAux ['[', '['] [] 0 (openPairs ps) = openPairs ps := by
  induction ps with
  | nil => simp [openPairs, replaceAux]
  | cons p rest ih =>
    obtain ⟨hx, hy⟩ := hps p (by simp)
    obtain ⟨-, hx1, -, -⟩ := token_chars p.1 hx
    obtain ⟨-, hy1, -, -⟩ := token_chars p.2 hy
    have hopen : openPairs (p :: rest) = '[' :: p.1 ++ ((',' :: p.2) ++ openPairs rest) := by
      simp [openPairs]
    have h1 := replace_open_pair p.1 ((',' :: p.2) ++ openPairs rest) hx1 (by simp)
    have h2 := replaceAux_skip_token '[' ['['] [] (',' :: p.2) (openPairs rest)
      (by simp [hy1])
    rw [hopen, h1, h2, ih (fun r hr => hps r (by simp [hr]))]

theorem Split_open_pairs (x y : GoString) (rest : List (GoString × GoString))
    (hx : isNumberToken x = true) (hy : isNumberToken y = true)
    (hps : ∀ p ∈ rest, isNumberToken p.1 = true ∧ isNumberToken p.2 = true) :
    Split ((x ++ ',' :: y) ++ openPairs rest) '[' =
      (x ++ ',' :: y) :: rest.map (fun p => p.1 ++ ',' :: p.2) := by
  induction rest generalizing x y with
  | nil =>
    obtain ⟨-, hx1, -, -⟩ := token_chars x hx
    obtain ⟨-, hy1, -, -⟩ := token_chars y hy
    simpa [openPairs] using Split_token '[' (x ++ ',' :: y) (by simp [hx1, hy1])
  | cons q rest2 ih =>
    obtain ⟨-, hx1, -, -⟩ := token_chars x hx
    obtain ⟨-, hy1, -, -⟩ := token_chars y hy
    obtain ⟨hqx, hqy⟩ := hps q (by simp)
    have hopen : openPairs (q :: rest2) = '[' :: ((q.1 ++ ',' :: q.2) ++ openPairs rest2) := by
      simp [openPairs]
    rw [hopen, Split_token_sep '[' (x ++ ',' :: y) _ (by simp [hx1, hy1]),
      ih q.1 q.2 hqx hqy (fun r hr => hps r (by simp [hr]))]
    simp

theorem unmarshalLoop_pairs {α : Type} (ParseFloat : GoString → α)
    (ps : List (GoString × GoString))
    (hps : ∀ p ∈ ps, isNumberToken p.1 = true ∧ isNumberToken p.2 = true)
    (acc : List (List α)) :
    unmarshalLoop ParseFloat (ps.map (fun p => p.1 ++ ',' :: p.2)) acc =
      some (acc ++ ps.map (fun p => [ParseFloat p.1, ParseFloat p.2])) := by
  induction ps generalizing acc with
  | nil => simp [unmarshalLoop]
  | cons p rest ih =>
    obtain ⟨hx, hy⟩ := hps p (by simp)
    obtain ⟨-, -, -, hx3⟩ := token_chars p.1 hx
    obtain ⟨-, -, -, hy3⟩ := token_chars p.2 hy
    rw [List.map_cons, unmarshalLoop_pair ParseFloat p.1 p.2 hx3 hy3,
      ih (fun r hr => hps r (by simp [hr]))]
    simp

/-- C3: a polygon with a single ring `[[[x1,y1],...,[xn,yn]]]` (n at least 1,
number tokens, any space characters added) is decoded without error to the
flat list of the n pairs `[parse xi, parse yi]`, in their order. -/
theorem unmarshal_single_ring {α : Type} (ParseFloat : GoString → α) (data : GoString)
    (ps : List (GoString × GoString)) (hne : ps ≠ [])
    (hps : ∀ p ∈ ps, isNumberToken p.1 = true ∧ isNumberToken p.2 = true)
    (hdata : withoutSpaces data = ringText ps) :
    UnmarshalJSON ParseFloat data =
      some (⟨ps.map fun p => [ParseFloat p.1, ParseFloat p.2]⟩, none) := by
  have hA : (replaceAux [']', ','] [] 0 (withoutSpaces data)).filter (fun d => d ≠ ']') =
      '[' :: '[' :: openPairs ps := by
    have h1 := replaceAux_skip_token ']' [','] [] ['[', '['] (pairsText ps ++ [']', ']'])
      (by decide)
    have h2 : ringText ps = ['[', '['] ++ (pairsText ps ++ [']', ']']) := by
      simp [ringText]
    rw [hdata, h2, h1, List.filter_append, replace_close_pairs ps hps]
    rfl
  have hB : replaceAux ['[', '['] [] 0 ('[' :: '[' :: openPairs ps) = openPairs ps := by
    have : replaceAux ['[', '['] [] 0 ('[' :: '[' :: openPairs ps) =
        replaceAux ['[', '['] [] 0 (openPairs ps) := by
      simp [replaceAux]
    rw [this, replace_open_pairs ps hps]
  rw [UnmarshalJSON_unfold, hA, hB]
  cases ps with
  | nil => exact absurd rfl hne
  | cons p rest =>
    obtain ⟨hx, hy⟩ := hps p (by simp)
    have hopen : openPairs (p :: rest) = '[' :: ((p.1 ++ ',' :: p.2) ++ openPairs rest) := by
      simp [openPairs]
    have hloop := unmarshalLoop_pairs ParseFloat (p :: rest) hps []
    rw [hopen]
    simp only [Split_open_pairs p.1 p.2 rest hx hy (fun r hr => hps r (by simp [hr]))]
    rw [List.map_cons] at hloop
    simp only [hloop, List.nil_append]

theorem unmarshal_single_ring_witness :
    ([("1".toList, "2".toList), ("3.5".toList, "-4e2".toList)] ≠ [] ∧
      (∀ p ∈ [("1".toList, "2".toList), ("3.5".toList, "-4e2".toList)],
        isNumberToken p.1 = true ∧ isNumberToken p.2 = true) ∧
      withoutSpaces "[[ [1, 2], [ 3.5 ,-4e2]] ]".toList =
        ringText [("1".toList, "2".toList), ("3.5".toList, "-4e2".toList)]) ∧
    UnmarshalJSON (fun s => s) "[[ [1, 2], [ 3.5 ,-4e2]] ]".toList =
      some (⟨[["1".toList, "2".toList], ["3.5".toList, "-4e2".toList]]⟩, none) :=
  ⟨by decide,
   unmarshal_single_ring (fun s => s) "[[ [1, 2], [ 3.5 ,-4e2]] ]".toList
     [("1".toList, "2".toList), ("3.5".toList, "-4e2".toList)]
     (by decide) (by decide) (by decide)⟩

theorem unmarshal_pair_of_plain {α : Type} (ParseFloat : GoString → α) (data x y : GoString)
    (hx : '[' ∉ x ∧ ']' ∉ x ∧ ',' ∉ x) (hy : '[' ∉ y ∧ ']' ∉ y ∧ ',' ∉ y)
    (hdata : withoutSpaces data = pairText (x, y)) :
    UnmarshalJSON ParseFloat data = some (⟨[[ParseFloat x, ParseFloat y]]⟩, none) := by
  obtain ⟨hx1, hx2, hx3⟩ := hx
  obtain ⟨hy1, hy2, hy3⟩ := hy
  have hbody : ']' ∉ '[' :: (x ++ ',' :: y) := by simp [hx2, hy2]
  have hA : replaceAux [']', ','] [] 0 (withoutSpaces data) =
      ('[' :: (x ++ ',' :: y)) ++ [']'] := by
    rw [hdata]
    have := replaceAux_skip_token ']' [','] [] ('[' :: (x ++ ',' :: y)) [']'] hbody
    simpa [pairText, replaceAux] using this
  have hB : (('[' :: (x ++ ',' :: y)) ++ [']']).filter (fun d => d ≠ ']') =
      '[' :: (x ++ ',' :: y) := by
    rw [List.filter_append, filter_token ']' _ hbody]
    simp
  have hC : replaceAux ['[', '['] [] 0 ('[' :: (x ++ ',' :: y)) = '[' :: (x ++ ',' :: y) := by
    have h1 := replace_open_pair x (',' :: y) hx1 (by simp)
    have h2 := replaceAux_skip_token '[' ['['] [] (',' :: y) [] (by simp [hy1])
    simp only [List.append_nil] at h2
    rw [h2] at h1
    simpa [replaceAux] using h1
  have hD : Split (x ++ ',' :: y) '[' = [x ++ ',' :: y] :=
    Split_token '[' _ (by simp [hx1, hy1])
  rw [UnmarshalJSON_unfold, hA, hB, hC]
  simp only [hD, unmarshalLoop_pair ParseFloat x y hx3 hy3, unmarshalLoop, List.nil_append]

theorem withoutSpaces_pairText (x y : GoString) (hx : ' ' ∉ x) (hy : ' ' ∉ y) :
    withoutSpaces (pairText (x, y)) = pairText (x, y) := by
  unfold withoutSpaces
  apply filter_token
  simp [pairText, hx, hy]

/-- C13: for a single pair `[t1,t2]` whose tokens hold no space, bracket or
comma, `UnmarshalJSON` returns a nil error and one pair made of what
`ParseFloat` returns for `t1` and for `t2`; as `ParseFloat` returns 0 for a
text that is not a well-formed number, a malformed token gives 0 and not a
failure of the decoding. -/
theorem malformed_token_decodes_to_zero {α : Type} (ParseFloat : GoString → α) (zero : α)
    (wellFormed : GoString → Bool)
    (hzero : ∀ s, wellFormed s = false → ParseFloat s = zero)
    (t1 t2 : GoString)
    (h1 : ' ' ∉ t1 ∧ '[' ∉ t1 ∧ ']' ∉ t1 ∧ ',' ∉ t1)
    (h2 : ' ' ∉ t2 ∧ '[' ∉ t2 ∧ ']' ∉ t2 ∧ ',' ∉ t2) :
    UnmarshalJSON ParseFloat (pairText (t1, t2)) =
      some (⟨[[ParseFloat t1, ParseFloat t2]]⟩, none) ∧
    UnmarshalJSON ParseFloat (pairText (t1, t2)) =
      some (⟨[[if wellFormed t1 = true then ParseFloat t1 else zero,
               if wellFormed t2 = true then ParseFloat t2 else zero]]⟩, none) := by
  have h := unmarshal_pair_of_plain ParseFloat (pairText (t1, t2)) t1 t2 h1.2 h2.2
    (withoutSpaces_pairText t1 t2 h1.1 h2.1)
  refine ⟨h, ?_⟩
  have e1 : (if wellFormed t1 = true then ParseFloat t1 else zero) = ParseFloat t1 := by
    cases hw : wellFormed t1 with
    | true => simp
    | false => simp [hzero t1 hw]
  have e2 : (if wellFormed t2 = true then ParseFloat t2 else zero) = ParseFloat t2 := by
    cases hw : wellFormed t2 with
    | true => simp
    | false => simp [hzero t2 hw]
  rw [e1, e2]
  exact h

theorem malformed_token_decodes_to_zero_witness :
    ((∀ s, isDigits s = false → parseDigits s = 0) ∧
      (' ' ∉ "abc".toList ∧ '[' ∉ "abc".toList ∧ ']' ∉ "abc".toList ∧ ',' ∉ "abc".toList) ∧
      (' ' ∉ "20".toList ∧ '[' ∉ "20".toList ∧ ']' ∉ "20".toList ∧ ',' ∉ "20".toList)) ∧
    UnmarshalJSON parseDigits "[abc,20]".toList = some (⟨[[0, 20]]⟩, none) :=
  ⟨⟨fun s hs => by simp [parseDigits, hs], by decide, by decide⟩,
   (malformed_token_decodes_to_zero parseDigits 0 isDigits
      (fun s hs => by simp [parseDigits, hs]) "abc".toList "20".toList
      (by decide) (by decide)).2⟩

/-! ## Theorems: nested arrays of numbers -/

theorem closeStripped_token (t r : GoString) (h : ']' ∉ t) :
    closeStripped (t ++ r) = t ++ closeStripped r := by
  unfold closeStripped
  rw [replaceAux_skip_token ']' [','] [] t r h, List.filter_append, filter_token ']' t h]

theorem closeStripped_close (r : GoString) :
    closeStripped (']' :: r) = closeStripped (dropLeadingComma r) := by
  unfold closeStripped dropLeadingComma
  cases r with
  | nil => simp [replaceAux]
  | cons c cs =>
    by_cases hc : c = ','
    · subst hc
      simp [replaceAux]
    · have hc2 : ¬ ',' = c := fun e => hc e.symm
      simp [replaceAux, hc, hc2, List.isPrefixOf]

theorem Split_ne_nil (s : GoString) (sep : Char) : Split s sep ≠ [] := by
  cases s with
  | nil => simp [Split]
  | cons c cs =>
    unfold Split
    by_cases h : c = sep
    · simp [h]
    · simp only [h, if_false]
      split <;> simp

theorem Split_two (s : GoString) (sep : Char) (h : sep ∈ s) :
    ∃ a b rest, Split s sep = a :: b :: rest := by
  induction s with
  | nil => simp at h
  | cons c cs ih =>
    by_cases hc : c = sep
    · cases hs : Split cs sep with
      | nil => exact absurd hs (Split_ne_nil cs sep)
      | cons b rest => exact ⟨[], b, rest, by simp [Split, hc, hs]⟩
    · have hmem : sep ∈ cs := by
        have h2 : ¬ sep = c := fun e => hc e.symm
        simpa [h2] using h
      obtain ⟨a, b, rest, hs⟩ := ih hmem
      exact ⟨c :: a, b, rest, by simp [Split, hc, hs]⟩

theorem unmarshalLoop_total {α : Type} (ParseFloat : GoString → α) (pieces : List GoString)
    (h : ∀ piece ∈ pieces, ',' ∈ piece) (acc : List (List α)) :
    ∃ out, unmarshalLoop ParseFloat pieces acc = some out := by
  induction pieces generalizing acc with
  | nil => exact ⟨acc, rfl⟩
  | cons piece rest ih =>
    obtain ⟨a, b, more, hs⟩ := Split_two piece ',' (h piece (by simp))
    obtain ⟨out, hout⟩ := ih (fun p hp => h p (by simp [hp]))
      (acc ++ [[ParseFloat a, ParseFloat b]])
    refine ⟨out, ?_⟩
    rw [unmarshalLoop]
    simp only [hs, List.getElem?_cons_zero, List.getElem?_cons_succ, List.nil_append,
      List.singleton_append]
    exact hout

theorem replace_one_bracket (x r : GoString) (hx : '[' ∉ x) (hne : x ≠ []) :
    replaceAux ['[', '['] [] 0 ('[' :: (x ++ r)) =
      '[' :: (x ++ replaceAux ['[', '['] [] 0 r) := by
  cases x with
  | nil => exact absurd rfl hne
  | cons c cs =>
    have hc : ¬ '[' = c := fun e => hx (List.mem_cons.2 (Or.inl e))
    have hskip := replaceAux_skip_token '[' ['['] [] (c :: cs) r hx
    have hpre : List.isPrefixOf ['[', '['] ('[' :: ((c :: cs) ++ r)) = false := by
      simp [List.isPrefixOf, hc]
    rw [replaceAux, hpre]
    simp only [Bool.false_eq_true, if_false, hskip]

theorem replace_run (n : Nat) (x r : GoString) (hx : '[' ∉ x) (hne : x ≠ []) :
    replaceAux ['[', '['] [] 0 (List.replicate n '[' ++ (x ++ r)) =
        (if n % 2 = 1 then ['['] else []) ++ (x ++ replaceAux ['[', '['] [] 0 r) := by
  induction n using Nat.strongRecOn with
  | _ n ih =>
    match n with
    | 0 =>
      simpa using replaceAux_skip_token '[' ['['] [] x r hx
    | 1 =>
      simpa using replace_one_bracket x r hx hne
    | m + 2 =>
      have hrep : List.replicate (m + 2) '[' ++ (x ++ r) =
          '[' :: '[' :: (List.replicate m '[' ++ (x ++ r)) := by
        simp [List.replicate_succ]
      have hstep : replaceAux ['[', '['] [] 0
            ('[' :: '[' :: (List.replicate m '[' ++ (x ++ r))) =
          replaceAux ['[', '['] [] 0 (List.replicate m '[' ++ (x ++ r)) := by
        simp [replaceAux]
      have hmod : (m + 2) % 2 = m % 2 := by omega
      rw [hrep, hstep, ih m (by omega), hmod]

theorem replace_blocks (blocks : List Block) (h : ∀ b ∈ blocks, goodBlock b) :
    replaceAux ['[', '['] [] 0 (blocksText blocks) = reducedText blocks := by
  induction blocks with
  | nil => simp [blocksText, reducedText, replaceAux]
  | cons b rest ih =>
    obtain ⟨hb1, -, c, tl, hb3, -⟩ := h b (by simp)
    have hne : b.2 ≠ [] := by
      rw [hb3]
      simp
    have ih2 := ih (fun b2 hb2 => h b2 (by simp [hb2]))
    have h1 : blocksText (b :: rest) = List.replicate b.1 '[' ++ (b.2 ++ blocksText rest) := by
      simp [blocksText]
    have h2 : reducedText (b :: rest) =
        (if b.1 % 2 = 1 then ['['] else []) ++ (b.2 ++ reducedText rest) := by
      simp [reducedText]
    rw [h1, h2, replace_run b.1 b.2 _ hb1 hne, ih2]

theorem pieces_have_comma (blocks : List Block) (h : ∀ b ∈ blocks, goodBlock b)
    (lead : GoString) (hl1 : '[' ∉ lead) (hl2 : ',' ∈ lead) :
    ∀ piece ∈ Split (lead ++ reducedText blocks) '[', ',' ∈ piece := by
  induction blocks generalizing lead with
  | nil =>
    intro piece hp
    have : Split (lead ++ reducedText []) '[' = [lead] := by
      simpa [reducedText] using Split_token '[' lead hl1
    rw [this] at hp
    simp only [List.mem_singleton] at hp
    rw [hp]
    exact hl2
  | cons b rest ih =>
    obtain ⟨hb1, -, c, tl, hb3, hb4⟩ := h b (by simp)
    have hcomma : ',' ∈ b.2 := by
      rw [hb3]
      simp [hb4]
    have hrest : ∀ b2 ∈ rest, goodBlock b2 := fun b2 hb2 => h b2 (by simp [hb2])
    by_cases hodd : b.1 % 2 = 1
    · have htext : lead ++ reducedText (b :: rest) =
          lead ++ '[' :: (b.2 ++ reducedText rest) := by
        simp [reducedText, hodd]
      intro piece hp
      rw [htext, Split_token_sep '[' lead _ hl1] at hp
      simp only [List.mem_cons] at hp
      rcases hp with hp | hp
      · rw [hp]
        exact hl2
      · exact ih hrest b.2 hb1 hcomma piece hp
    · have htext : lead ++ reducedText (b :: rest) = (lead ++ b.2) ++ reducedText rest := by
        simp [reducedText, hodd]
      rw [htext]
      exact ih hrest (lead ++ b.2) (by simp [hl1, hb1]) (by simp [hl2])

theorem unmarshal_of_blocks {α : Type} (ParseFloat : GoString → α) (data : GoString)
    (blocks : List Block) (hne : blocks ≠ []) (h : ∀ b ∈ blocks, goodBlock b)
    (hdata : closeStripped (withoutSpaces data) = blocksText blocks) :
    ∃ c, UnmarshalJSON ParseFloat data = some (c, none) := by
  have hred : replaceAux ['[', '['] [] 0
      ((replaceAux [']', ','] [] 0 (withoutSpaces data)).filter (fun d => d ≠ ']')) =
        reducedText blocks := by
    have : (replaceAux [']', ','] [] 0 (withoutSpaces data)).filter (fun d => d ≠ ']') =
        blocksText blocks := hdata
    rw [this, replace_blocks blocks h]
  rw [UnmarshalJSON_unfold, hred]
  cases blocks with
  | nil => exact absurd rfl hne
  | cons b rest =>
    obtain ⟨hb1, -, c, tl, hb3, hb4⟩ := h b (by simp)
    have hrest : ∀ b2 ∈ rest, goodBlock b2 := fun b2 hb2 => h b2 (by simp [hb2])
    have hc : '[' ∉ tl := by
      rw [hb3] at hb1
      exact fun e => hb1 (by simp [e])
    by_cases hodd : b.1 % 2 = 1
    · have htext : reducedText (b :: rest) = '[' :: (b.2 ++ reducedText rest) := by
        simp [reducedText, hodd]
      have hcomma : ',' ∈ b.2 := by
        rw [hb3]
        simp [hb4]
      obtain ⟨out, hout⟩ := unmarshalLoop_total ParseFloat _
        (pieces_have_comma rest hrest b.2 hb1 hcomma) []
      rw [htext]
      simp only [hout]
      exact ⟨_, rfl⟩
    · have htext : reducedText (b :: rest) = c :: (tl ++ reducedText rest) := by
        simp [reducedText, hodd, hb3]
      obtain ⟨out, hout⟩ := unmarshalLoop_total ParseFloat _
        (pieces_have_comma rest hrest tl hc hb4) []
      rw [htext]
      simp only [hout]
      exact ⟨_, rfl⟩

theorem intercalate_cons_cons (sep a b : GoString) (rest : List GoString) :
    sep.intercalate (a :: b :: rest) = a ++ (sep ++ sep.intercalate (b :: rest)) := by
  simp [List.intercalate, List.intersperse]

theorem intercalate_single (sep a : GoString) : sep.intercalate [a] = a := by
  simp [List.intercalate, List.intersperse]

theorem mem_intercalate_comma (c : Char) (xs : List GoString)
    (h : c ∈ ",".toList.intercalate xs) : c = ',' ∨ ∃ x ∈ xs, c ∈ x := by
  induction xs with
  | nil => simp [List.intercalate] at h
  | cons a rest ih =>
    cases rest with
    | nil =>
      rw [intercalate_single] at h
      exact Or.inr ⟨a, by simp, h⟩
    | cons b more =>
      rw [intercalate_cons_cons] at h
      rcases List.mem_append.1 h with h1 | h1
      · exact Or.inr ⟨a, by simp, h1⟩
      · rcases List.mem_append.1 h1 with h2 | h2
        · left
          simpa using h2
        · rcases ih h2 with h3 | ⟨x, hx, hcx⟩
          · exact Or.inl h3
          · exact Or.inr ⟨x, by simp [hx], hcx⟩

theorem innermost_block (tokens : List GoString) (h2 : 2 ≤ tokens.length)
    (htok : ∀ t ∈ tokens, isNumberToken t = true) :
    goodBlock (1, ",".toList.intercalate tokens) := by
  have hopen : '[' ∉ ",".toList.intercalate tokens := by
    intro hm
    rcases mem_intercalate_comma _ _ hm with h | ⟨x, hx, hcx⟩
    · exact absurd h (by decide)
    · exact (token_chars x (htok x hx)).2.1 hcx
  have hclose : ']' ∉ ",".toList.intercalate tokens := by
    intro hm
    rcases mem_intercalate_comma _ _ hm with h | ⟨x, hx, hcx⟩
    · exact absurd h (by decide)
    · exact (token_chars x (htok x hx)).2.2.1 hcx
  refine ⟨hopen, hclose, ?_⟩
  match tokens, h2, htok with
  | t1 :: t2 :: more, _, htok =>
    have ht1 := htok t1 (by simp)
    cases t1 with
    | nil => exact absurd ht1 (by decide)
    | cons c tl =>
      refine ⟨c, tl ++ (",".toList ++ ",".toList.intercalate (t2 :: more)), ?_, ?_⟩
      · show ",".toList.intercalate ((c :: tl) :: t2 :: more) = _
        rw [intercalate_cons_cons]
        rfl
      · simp

theorem blocksText_bump (b : Block) (rest : List Block) :
    '[' :: blocksText (b :: rest) = blocksText ((b.1 + 1, b.2) :: rest) := by
  simp [blocksText, List.replicate_succ]

theorem closeStripped_items (items : List GoString) (hne : items ≠ [])
    (ih : ∀ s ∈ items, ∃ blocks : List Block, blocks ≠ [] ∧ (∀ b ∈ blocks, goodBlock b) ∧
      ∀ rest, closeStripped (s ++ rest) =
        blocksText blocks ++ closeStripped (dropLeadingComma rest)) :
    ∃ blocks : List Block, blocks ≠ [] ∧ (∀ b ∈ blocks, goodBlock b) ∧
      ∀ rest, closeStripped (",".toList.intercalate items ++ ']' :: rest) =
        blocksText blocks ++ closeStripped (dropLeadingComma rest) := by
  induction items with
  | nil => exact absurd rfl hne
  | cons a more ihl =>
    obtain ⟨ba, hba1, hba2, hba3⟩ := ih a (by simp)
    cases more with
    | nil =>
      refine ⟨ba, hba1, hba2, ?_⟩
      intro rest
      have hdrop : dropLeadingComma (']' :: rest) = ']' :: rest := by
        simp [dropLeadingComma]
      rw [intercalate_single, hba3, hdrop, closeStripped_close]
    | cons b more2 =>
      obtain ⟨bs, hbs1, hbs2, hbs3⟩ := ihl (by simp) (fun s hs => ih s (by simp [hs]))
      refine ⟨ba ++ bs, by simp [hba1], ?_, ?_⟩
      · intro blk hblk
        rcases List.mem_append.1 hblk with h | h
        · exact hba2 blk h
        · exact hbs2 blk h
      · intro rest
        rw [intercalate_cons_cons, List.append_assoc, hba3]
        have hdrop : dropLeadingComma
            (",".toList ++ ",".toList.intercalate (b :: more2) ++ ']' :: rest) =
            ",".toList.intercalate (b :: more2) ++ ']' :: rest := by
          simp [dropLeadingComma]
        rw [hdrop, hbs3]
        simp [blocksText]

theorem closeStripped_nested (s : GoString) (h : NestedNumbers s) :
    ∃ blocks : List Block, blocks ≠ [] ∧ (∀ b ∈ blocks, goodBlock b) ∧
      ∀ rest, closeStripped (s ++ rest) =
        blocksText blocks ++ closeStripped (dropLeadingComma rest) := by
  induction h with
  | innermost tokens h2 htok =>
    have hgood := innermost_block tokens h2 htok
    refine ⟨[(1, ",".toList.intercalate tokens)], by simp, ?_, ?_⟩
    · intro b hb
      simp only [List.mem_singleton] at hb
      rw [hb]
      exact hgood
    · intro rest
      have hbody : ']' ∉ '[' :: ",".toList.intercalate tokens := by
        intro hm
        rcases List.mem_cons.1 hm with h | h
        · exact absurd h (by decide)
        · exact hgood.2.1 h
      have htext : ('[' :: ",".toList.intercalate tokens ++ [']']) ++ rest =
          ('[' :: ",".toList.intercalate tokens) ++ (']' :: rest) := by simp
      rw [htext, closeStripped_token _ _ hbody, closeStripped_close]
      simp [blocksText]
  | outer items hne _ ih =>
    obtain ⟨blocks, hb1, hb2, hb3⟩ := closeStripped_items items hne ih
    cases blocks with
    | nil => exact absurd rfl hb1
    | cons b more =>
      refine ⟨(b.1 + 1, b.2) :: more, by simp, ?_, ?_⟩
      · intro blk hblk
        rcases List.mem_cons.1 hblk with h | h
        · rw [h]
          exact hb2 b (by simp)
        · exact hb2 blk (by simp [h])
      · intro rest
        have htext : ('[' :: ",".toList.intercalate items ++ [']']) ++ rest =
            ['['] ++ (",".toList.intercalate items ++ ']' :: rest) := by simp
        rw [htext, closeStripped_token ['['] _ (by decide), hb3, ← blocksText_bump]
        rfl

/-- C15 (the code at the failing input): the polygon with two rings
`[[[1,2],[3,4]],[[5,6],[7,8]]]` is decoded to three pairs, the second parsed
from `3` and `45`: the pair `[5,6]` is lost and the value 4 is altered. -/
theorem unmarshal_two_rings_merges_pairs {α : Type} (ParseFloat : GoString → α) :
    UnmarshalJSON ParseFloat "[[[1,2],[3,4]],[[5,6],[7,8]]]".toList =
      some (⟨[[ParseFloat "1".toList, ParseFloat "2".toList],
              [ParseFloat "3".toList, ParseFloat "45".toList],
              [ParseFloat "7".toList, ParseFloat "8".toList]]⟩, none) :=
  rfl

theorem nested_one_two : NestedNumbers "[[1,2]]".toList := by
  have h1 : NestedNumbers "[1,2]".toList :=
    NestedNumbers.innermost ["1".toList, "2".toList] (by decide) (by decide)
  have h2 := NestedNumbers.outer ["[1,2]".toList] (by decide) (fun s hs => by
    rw [List.mem_singleton.1 hs]
    exact h1)
  exact h2

/-- C18 (counterexample): the text `[`, line feed, `[1,2]]` is a well-formed
JSON array of numbers nested to depth 2, with two numbers in its innermost
array, and `UnmarshalJSON` panics on it: the line feed is not removed, it is a
piece without comma, and `split[1]` is out of range. -/
theorem nested_array_with_line_feed_panics :
    NestedNumbers (withoutWhitespace ['[', '\n', '[', '1', ',', '2', ']', ']']) ∧
    UnmarshalJSON parseDigits ['[', '\n', '[', '1', ',', '2', ']', ']'] = none :=
  ⟨nested_one_two, by decide⟩

/-- C18 (amended): for every input that, its space characters apart, is the
text of an array of numbers nested to any depth in which every array is
non-empty and every innermost array holds at least two numbers,
`UnmarshalJSON` does not panic and returns a nil error; on `[]` and on `null`
it panics. -/
theorem nested_array_decodes_without_panic {α : Type} (ParseFloat : GoString → α)
    (data : GoString) (h : NestedNumbers (withoutSpaces data)) :
    (∃ c, UnmarshalJSON ParseFloat data = some (c, none)) ∧
    UnmarshalJSON ParseFloat "[]".toList = none ∧
    UnmarshalJSON ParseFloat "null".toList = none := by
  refine ⟨?_, rfl, rfl⟩
  obtain ⟨blocks, hne, hgood, htext⟩ := closeStripped_nested (withoutSpaces data) h
  have h0 := htext []
  have hdrop : closeStripped (dropLeadingComma []) = [] := by
    simp [dropLeadingComma, closeStripped, replaceAux]
  rw [List.append_nil, hdrop, List.append_nil] at h0
  exact unmarshal_of_blocks ParseFloat data blocks hne hgood h0

theorem nested_array_decodes_without_panic_witness :
    NestedNumbers (withoutSpaces "[ [1,2] ]".toList) ∧
    ((∃ c, UnmarshalJSON parseDigits "[ [1,2] ]".toList = some (c, none)) ∧
      UnmarshalJSON parseDigits "[]".toList = none ∧
      UnmarshalJSON parseDigits "null".toList = none) :=
  ⟨nested_one_two, nested_array_decodes_without_panic parseDigits "[ [1,2] ]".toList
    nested_one_two⟩

/-! ## Theorems: `isValidDate` -/

theorem digit_iff (c : Char) : ('0' ≤ c ∧ c ≤ '9') ↔ c.isDigit = true := by
  simp only [Char.isDigit, Char.le_def, UInt32.le_def, Bool.and_eq_true, decide_eq_true_eq,
    ge_iff_le]
  exact Iff.rfl

theorem digit_bounds (c : Char) (h : c.isDigit = true) : 48 ≤ c.toNat ∧ c.toNat ≤ 57 := by
  simp only [Char.isDigit, Bool.and_eq_true, decide_eq_true_eq, ge_iff_le, UInt32.le_def] at h
  exact h

theorem not_digit_iff (c : Char) : (c < '0' ∨ c > '9') ↔ c.isDigit = false := by
  rw [← Bool.not_eq_true, ← digit_iff, not_and_or, not_le, not_le]

theorem isDigit_head (c : Char) (s : GoString) : isDigit (c :: s) 0 = c.isDigit := by
  have h := digit_iff c
  simp only [isDigit, List.getElem?_cons_zero]
  by_cases hc : c.isDigit = true
  · rw [hc]
    simpa using h.2 hc
  · have hc2 : c.isDigit = false := by simpa using hc
    rw [hc2]
    have : ¬ ('0' ≤ c ∧ c ≤ '9') := fun e => hc (h.1 e)
    simpa using this

theorem isDigit_second (a c : Char) (s : GoString) : isDigit (a :: c :: s) 1 = c.isDigit := by
  have h := isDigit_head c s
  simpa [isDigit] using h

theorem getnum_fixed (s : GoString) :
    getnum s true =
      match s with
      | a :: b :: r =>
        if a.isDigit = true ∧ b.isDigit = true then
          .ok (digitValue a * 10 + digitValue b, r)
        else .error .errBad
      | _ => .error .errBad := by
  rcases s with _ | ⟨a, _ | ⟨b, r⟩⟩
  · simp [getnum, isDigit]
  · by_cases ha : a.isDigit = true <;> simp [getnum, isDigit_head, ha, isDigit]
  · by_cases ha : a.isDigit = true <;> by_cases hb : b.isDigit = true <;>
      simp [getnum, isDigit_head, isDigit_second, ha, hb, digitAt, digitValue]

theorem dash_toList : "-".toList = ['-'] := rfl

theorem skip_dash (value : GoString) :
    skip value ['-'] =
      match value with
      | c :: r => if c = '-' then .ok r else .error .errBad
      | [] => .error .errBad := by
  rcases value with _ | ⟨c, r⟩
  · rfl
  · by_cases hc : c = '-'
    · subst hc
      cases r <;> rfl
    · simp [skip, hc]

theorem leadingInt_digit (c : Char) (cs : GoString) (x : Nat) (hc : c.isDigit = true)
    (hx : x ≤ 999) :
    leadingInt (c :: cs) x = leadingInt cs (x * 10 + digitValue c) := by
  have hb := digit_bounds c hc
  have h1 : ¬ (c < '0' ∨ c > '9') := by
    rw [not_digit_iff, hc]
    simp
  have h2 : ¬ x > 2 ^ 63 / 10 := by
    have : (2 : Nat) ^ 63 / 10 = 922337203685477580 := by norm_num
    omega
  have h3 : ¬ x * 10 + c.toNat - '0'.toNat > 2 ^ 63 := by
    have : (2 : Nat) ^ 63 = 9223372036854775808 := by norm_num
    have h0 : '0'.toNat = 48 := rfl
    omega
  have h4 : x * 10 + c.toNat - '0'.toNat = x * 10 + digitValue c := by
    have h0 : '0'.toNat = 48 := rfl
    unfold digitValue
    omega
  rw [h4] at h3
  rw [leadingInt]
  simp only [h1, h2, h4, h3, if_false]

theorem leadingInt_stop (c : Char) (cs : GoString) (x : Nat) (hc : c.isDigit = false) :
    leadingInt (c :: cs) x = some (x, c :: cs) := by
  have h1 : c < '0' ∨ c > '9' := (not_digit_iff c).2 hc
  rw [leadingInt]
  simp only [h1, if_true]

theorem atoi_year (y1 y2 y3 y4 : Char) (h1 : y1.isDigit = true) :
    atoi [y1, y2, y3, y4] =
      if y2.isDigit = true ∧ y3.isDigit = true ∧ y4.isDigit = true then
        .ok ((digitValue y1 * 1000 + digitValue y2 * 100 + digitValue y3 * 10 +
          digitValue y4 : Nat) : Int)
      else .error .errAtoi := by
  have hb1 := digit_bounds y1 h1
  have hm : y1 ≠ '-' := by
    rintro rfl
    exact absurd h1 (by decide)
  have hp : y1 ≠ '+' := by
    rintro rfl
    exact absurd h1 (by decide)
  have hd1 : digitValue y1 ≤ 9 := by
    unfold digitValue
    omega
  unfold atoi
  simp only [hm, hp, or_self, if_false, decide_False]
  rw [leadingInt_digit y1 _ 0 h1 (by omega)]
  by_cases h2 : y2.isDigit = true
  · have hd2 : digitValue y2 ≤ 9 := by
      have := digit_bounds y2 h2
      unfold digitValue
      omega
    rw [leadingInt_digit y2 _ _ h2 (by omega)]
    by_cases h3 : y3.isDigit = true
    · have hd3 : digitValue y3 ≤ 9 := by
        have := digit_bounds y3 h3
        unfold digitValue
        omega
      rw [leadingInt_digit y3 _ _ h3 (by omega)]
      by_cases h4 : y4.isDigit = true
      · rw [leadingInt_digit y4 _ _ h4 (by omega)]
        simp only [leadingInt, h2, h3, h4, and_self, if_true, List.length_nil, gt_iff_lt,
          lt_self_iff_false, if_false, Bool.false_eq_true]
        congr 2
        omega
      · have h4f : y4.isDigit = false := by simpa using h4
        rw [leadingInt_stop y4 _ _ h4f]
        simp [h4f]
    · have h3f : y3.isDigit = false := by simpa using h3
      rw [leadingInt_stop y3 _ _ h3f]
      simp [h3f]
  · have h2f : y2.isDigit = false := by simpa using h2
    rw [leadingInt_stop y2 _ _ h2f]
    simp [h2f]

theorem daysIn_eq_spec (year month : Nat) (h1 : 1 ≤ month) (h12 : month ≤ 12) :
    daysIn month (year : Int) = specDaysInMonth year month := by
  have hleap : isLeap (year : Int) = specLeapYear year := by
    unfold isLeap specLeapYear
    by_cases a : year % 4 = 0 <;> by_cases b : year % 100 = 0 <;>
      by_cases c : year % 400 = 0 <;>
      simp [a, b, c] <;> omega
  interval_cases month <;> simp [daysIn, daysBefore, specDaysInMonth, hleap]

theorem specISODate_shape (d : GoString) (h : specISODate d = true) :
    ∃ y1 y2 y3 y4 m1 m2 d1 d2 : Char,
      d = [y1, y2, y3, y4, '-', m1, m2, '-', d1, d2] ∧
      y1.isDigit = true ∧ y2.isDigit = true ∧ y3.isDigit = true ∧ y4.isDigit = true ∧
      m1.isDigit = true ∧ m2.isDigit = true ∧ d1.isDigit = true ∧ d2.isDigit = true ∧
      1 ≤ digitValue m1 * 10 + digitValue m2 ∧ digitValue m1 * 10 + digitValue m2 ≤ 12 ∧
      1 ≤ digitValue d1 * 10 + digitValue d2 ∧
      digitValue d1 * 10 + digitValue d2 ≤
        specDaysInMonth
          (digitValue y1 * 1000 + digitValue y2 * 100 + digitValue y3 * 10 + digitValue y4)
          (digitValue m1 * 10 + digitValue m2) := by
  rcases d with _ | ⟨y1, _ | ⟨y2, _ | ⟨y3, _ | ⟨y4, _ | ⟨s1, _ | ⟨m1, _ | ⟨m2, _ | ⟨s2,
    _ | ⟨d1, _ | ⟨d2, _ | ⟨e, r⟩⟩⟩⟩⟩⟩⟩⟩⟩⟩⟩ <;>
    try (simp [specISODate] at h; done)
  simp only [specISODate, Bool.and_eq_true, decide_eq_true_eq] at h
  obtain ⟨⟨⟨⟨⟨⟨⟨⟨⟨⟨a1, a2⟩, a3⟩, a4⟩, a5⟩, a6⟩, a7⟩, a8⟩, a9⟩, a10⟩, ⟨⟨b1, b2⟩, b3⟩, b4⟩ := h
  subst a5 a8
  exact ⟨y1, y2, y3, y4, m1, m2, d1, d2, rfl, a1, a2, a3, a4, a6, a7, a9, a10, b1, b2, b3, b4⟩

theorem Parse_of_spec (d : GoString) (h : specISODate d = true) : isValidDate d = true := by
  obtain ⟨y1, y2, y3, y4, m1, m2, d1, d2, rfl, a1, a2, a3, a4, a6, a7, a9, a10, b1, b2, b3, b4⟩ :=
    specISODate_shape d h
  have hdays := daysIn_eq_spec
    (digitValue y1 * 1000 + digitValue y2 * 100 + digitValue y3 * 10 + digitValue y4)
    (digitValue m1 * 10 + digitValue m2) b1 b2
  have hm : ¬ (digitValue m1 * 10 + digitValue m2 ≤ 0 ∨ 12 < digitValue m1 * 10 + digitValue m2) := by
    omega
  have hd : ¬ (digitValue d1 * 10 + digitValue d2 < 1 ∨
      digitValue d1 * 10 + digitValue d2 >
        daysIn (digitValue m1 * 10 + digitValue m2)
          ((digitValue y1 * 1000 + digitValue y2 * 100 + digitValue y3 * 10 + digitValue y4 : Nat) : Int)) := by
    rw [hdays]
    omega
  unfold isValidDate Parse
  simp only [List.length_cons, List.length_nil, isDigit_head, a1, List.take, List.drop,
    atoi_year y1 y2 y3 y4 a1, a2, a3, a4, and_self, if_true, dash_toList, skip_dash, getnum_fixed, a6, a7,
    a9, a10, hm, hd, if_false]
  simp

theorem spec_of_Parse (d : GoString) (h : isValidDate d = true) : specISODate d = true := by
  have hlen : ∀ n : Nat, (n + 1 + 1 + 1 + 1 < 4) = False := fun n => by
    simp only [eq_iff_iff, iff_false]
    omega
  unfold isValidDate at h
  rcases d with _ | ⟨y1, _ | ⟨y2, _ | ⟨y3, _ | ⟨y4, v⟩⟩⟩⟩
  · simp [Parse] at h
  · simp [Parse] at h
  · simp [Parse] at h
  · simp [Parse] at h
  by_cases h1 : y1.isDigit = true
  swap
  · have h1f : y1.isDigit = false := by simpa using h1
    simp only [Parse, List.length_cons, List.length_nil, hlen, isDigit_head, List.take,
      List.drop, dash_toList, skip_dash, getnum_fixed, if_true, if_false, and_self, or_false,
      false_or, h1f] at h
    simp at h
  by_cases h2 : y2.isDigit = true ∧ y3.isDigit = true ∧ y4.isDigit = true
  swap
  · simp only [Parse, List.length_cons, List.length_nil, hlen, isDigit_head, List.take,
      List.drop, dash_toList, skip_dash, getnum_fixed, if_true, if_false, and_self, or_false,
      false_or, h1, atoi_year y1 y2 y3 y4 h1, h2] at h
    simp at h
  rcases v with _ | ⟨s1, v⟩
  · simp only [Parse, List.length_cons, List.length_nil, hlen, isDigit_head, List.take,
      List.drop, dash_toList, skip_dash, getnum_fixed, if_true, if_false, and_self, or_false,
      false_or, h1, atoi_year y1 y2 y3 y4 h1, h2] at h
    simp at h
  by_cases hs1 : s1 = '-'
  swap
  · simp only [Parse, List.length_cons, List.length_nil, hlen, isDigit_head, List.take,
      List.drop, dash_toList, skip_dash, getnum_fixed, if_true, if_false, and_self, or_false,
      false_or, h1, atoi_year y1 y2 y3 y4 h1, h2, hs1] at h
    simp at h
  rcases v with _ | ⟨m1, _ | ⟨m2, v⟩⟩
  · simp only [Parse, List.length_cons, List.length_nil, hlen, isDigit_head, List.take,
      List.drop, dash_toList, skip_dash, getnum_fixed, if_true, if_false, and_self, or_false,
      false_or, h1, atoi_year y1 y2 y3 y4 h1, h2, hs1] at h
    simp at h
  · simp only [Parse, List.length_cons, List.length_nil, hlen, isDigit_head, List.take,
      List.drop, dash_toList, skip_dash, getnum_fixed, if_true, if_false, and_self, or_false,
      false_or, h1, atoi_year y1 y2 y3 y4 h1, h2, hs1] at h
    simp at h
  by_cases hm : m1.isDigit = true ∧ m2.isDigit = true
  swap
  · simp only [Parse, List.length_cons, List.length_nil, hlen, isDigit_head, List.take,
      List.drop, dash_toList, skip_dash, getnum_fixed, if_true, if_false, and_self, or_false,
      false_or, h1, atoi_year y1 y2 y3 y4 h1, h2, hs1, hm] at h
    simp at h
  by_cases hmr : digitValue m1 * 10 + digitValue m2 ≤ 0 ∨ 12 < digitValue m1 * 10 + digitValue m2
  · simp only [Parse, List.length_cons, List.length_nil, hlen, isDigit_head, List.take,
      List.drop, dash_toList, skip_dash, getnum_fixed, if_true, if_false, and_self, or_false,
      false_or, h1, atoi_year y1 y2 y3 y4 h1, h2, hs1, hm, hmr] at h
    simp at h
  rcases v with _ | ⟨s2, v⟩
  · simp only [Parse, List.length_cons, List.length_nil, hlen, isDigit_head, List.take,
      List.drop, dash_toList, skip_dash, getnum_fixed, if_true, if_false, and_self, or_false,
      false_or, h1, atoi_year y1 y2 y3 y4 h1, h2, hs1, hm, hmr] at h
    simp at h
  by_cases hs2 : s2 = '-'
  swap
  · simp only [Parse, List.length_cons, List.length_nil, hlen, isDigit_head, List.take,
      List.drop, dash_toList, skip_dash, getnum_fixed, if_true, if_false, and_self, or_false,
      false_or, h1, atoi_year y1 y2 y3 y4 h1, h2, hs1, hm, hmr, hs2] at h
    simp at h
  rcases v with _ | ⟨d1, _ | ⟨d2, v⟩⟩
  · simp only [Parse, List.length_cons, List.length_nil, hlen, isDigit_head, List.take,
      List.drop, dash_toList, skip_dash, getnum_fixed, if_true, if_false, and_self, or_false,
      false_or, h1, atoi_year y1 y2 y3 y4 h1, h2, hs1, hm, hmr, hs2] at h
    simp at h
  · simp only [Parse, List.length_cons, List.length_nil, hlen, isDigit_head, List.take,
      List.drop, dash_toList, skip_dash, getnum_fixed, if_true, if_false, and_self, or_false,
      false_or, h1, atoi_year y1 y2 y3 y4 h1, h2, hs1, hm, hmr, hs2] at h
    simp at h
  by_cases hd : d1.isDigit = true ∧ d2.isDigit = true
  swap
  · simp only [Parse, List.length_cons, List.length_nil, hlen, isDigit_head, List.take,
      List.drop, dash_toList, skip_dash, getnum_fixed, if_true, if_false, and_self, or_false,
      false_or, h1, atoi_year y1 y2 y3 y4 h1, h2, hs1, hm, hmr, hs2, hd] at h
    simp at h
  rcases v with _ | ⟨e, v⟩
  swap
  · simp only [Parse, List.length_cons, List.length_nil, hlen, isDigit_head, List.take,
      List.drop, dash_toList, skip_dash, getnum_fixed, if_true, if_false, and_self, or_false,
      false_or, h1, atoi_year y1 y2 y3 y4 h1, h2, hs1, hm, hmr, hs2, hd] at h
    simp at h
  by_cases hdr : digitValue d1 * 10 + digitValue d2 < 1 ∨
      digitValue d1 * 10 + digitValue d2 >
        daysIn (digitValue m1 * 10 + digitValue m2)
          ((digitValue y1 * 1000 + digitValue y2 * 100 + digitValue y3 * 10 + digitValue y4 :
            Nat) : Int)
  · simp only [Parse, List.length_cons, List.length_nil, hlen, isDigit_head, List.take,
      List.drop, dash_toList, skip_dash, getnum_fixed, if_true, if_false, and_self, or_false,
      false_or, h1, atoi_year y1 y2 y3 y4 h1, h2, hs1, hm, hmr, hs2, hd, hdr] at h
    simp at h
  have hm1 : 1 ≤ digitValue m1 * 10 + digitValue m2 := by omega
  have hm12 : digitValue m1 * 10 + digitValue m2 ≤ 12 := by omega
  rw [daysIn_eq_spec _ _ hm1 hm12] at hdr
  have hd1 : 1 ≤ digitValue d1 * 10 + digitValue d2 := by omega
  have hd2 : digitValue d1 * 10 + digitValue d2 ≤
      specDaysInMonth
        (digitValue y1 * 1000 + digitValue y2 * 100 + digitValue y3 * 10 + digitValue y4)
        (digitValue m1 * 10 + digitValue m2) := by omega
  simp [specISODate, h1, h2, hs1, hm, hs2, hd, hm1, hm12, hd1, hd2]

/-- C6: `isValidDate d` is true exactly when `d` has the form `YYYY-MM-DD` with
a month in 1..12 and a day in 1..(days of that month in that year, Gregorian leap
years); `2021-03-01` and `2020-02-29` are valid, `2021-02-29`, `2021-13-40`,
`2021-3-1` and the empty string are not. -/
theorem isValidDate_iff_iso_date :
    (∀ d : GoString, isValidDate d = true ↔ specISODate d = true) ∧
    isValidDate "2021-03-01".toList = true ∧ isValidDate "2020-02-29".toList = true ∧
    isValidDate "2021-02-29".toList = false ∧ isValidDate "2021-13-40".toList = false ∧
    isValidDate "2021-3-1".toList = false ∧ isValidDate "".toList = false :=
  ⟨fun d => ⟨spec_of_Parse d, Parse_of_spec d⟩, by decide, by decide, by decide, by decide,
    by decide, by decide⟩

/-! ## Theorems: `GetEventsByDate` -/

theorem GetEventsByDate_invalid_start {ε κ : Type} (client : HTTPClient ε)
    (Unmarshal : GoString → Except ε κ) (startDate endDate : GoString)
    (h : isValidDate startDate = false) :
    GetEventsByDate client Unmarshal startDate endDate =
      (.error (.New "the starting date is invalid".toList), []) := by
  unfold GetEventsByDate
  simp [h]

theorem GetEventsByDate_invalid_end {ε κ : Type} (client : HTTPClient ε)
    (Unmarshal : GoString → Except ε κ) (startDate endDate : GoString)
    (hs : isValidDate startDate = true) (hne : endDate ≠ [])
    (h : isValidDate endDate = false) :
    GetEventsByDate client Unmarshal startDate endDate =
      (.error (.New "the ending date is invalid".toList), []) := by
  unfold GetEventsByDate
  simp [hs, h, hne]

theorem sendRequest_sent {ε : Type} (client : HTTPClient ε) (url : GoString) :
    (sendRequest client url).2 = [url] := by
  unfold sendRequest
  cases client.Do url with
  | error err => rfl
  | ok response =>
    cases response with
    | error err => rfl
    | ok responseData => rfl

theorem queryEventsApi_sent {ε κ : Type} (client : HTTPClient ε)
    (Unmarshal : GoString → Except ε κ) (url : GoString) :
    (queryEventsApi client Unmarshal url).2 = [url] := by
  have h := sendRequest_sent client url
  unfold queryEventsApi
  rcases hr : sendRequest client url with ⟨r, sent⟩
  rw [hr] at h
  simp only at h
  subst h
  cases r with
  | error err => rfl
  | ok responseData =>
    simp only
    cases Unmarshal responseData with
    | error err => rfl
    | ok collection => rfl

theorem GetEventsByDate_valid_sent {ε κ : Type} (client : HTTPClient ε)
    (Unmarshal : GoString → Except ε κ) (startDate endDate : GoString)
    (h : ¬ (isValidDate startDate = false ∨ (endDate ≠ [] ∧ isValidDate endDate = false))) :
    (GetEventsByDate client Unmarshal startDate endDate).2 =
      [(createEventsApiUrl { start := startDate, «end» := endDate }).String] := by
  have hs : isValidDate startDate = true := by
    by_contra hc
    exact h (Or.inl (by simpa using hc))
  have he : ¬ (endDate ≠ [] ∧ (!isValidDate endDate) = true) := by
    rintro ⟨h1, h2⟩
    exact h (Or.inr ⟨h1, by simpa using h2⟩)
  have hq := queryEventsApi_sent client Unmarshal
    (createEventsApiUrl { start := startDate, «end» := endDate }).String
  unfold GetEventsByDate
  simp only [hs, Bool.not_true, Bool.false_eq_true, if_false, he]
  rcases hr : queryEventsApi client Unmarshal
    (createEventsApiUrl { start := startDate, «end» := endDate }).String with ⟨r, sent⟩
  rw [hr] at hq
  cases r with
  | error err => exact hq
  | ok collection => exact hq

/-- C5: `GetEventsByDate` returns an error made by `errors.New` (and so no
Collection) with no request sent exactly when the start date is not valid, or
the end date is not empty and not valid; in every other case exactly one
request is sent, to the URL built from the two dates.  The calls with two empty
dates, and with `2021-03-01` and `bad-date`, fail with no request. -/
theorem GetEventsByDate_validation {ε κ : Type} (client : HTTPClient ε)
    (Unmarshal : GoString → Except ε κ) (startDate endDate : GoString) :
    (((∃ text, (GetEventsByDate client Unmarshal startDate endDate).1 = .error (.New text)) ∧
        (GetEventsByDate client Unmarshal startDate endDate).2 = []) ↔
      (isValidDate startDate = false ∨ (endDate ≠ [] ∧ isValidDate endDate = false))) ∧
    (GetEventsByDate client Unmarshal startDate endDate).2 =
      (if isValidDate startDate = false ∨ (endDate ≠ [] ∧ isValidDate endDate = false) then []
       else [(createEventsApiUrl { start := startDate, «end» := endDate }).String]) ∧
    GetEventsByDate client Unmarshal [] [] =
      (.error (.New "the starting date is invalid".toList), []) ∧
    GetEventsByDate client Unmarshal "2021-03-01".toList "bad-date".toList =
      (.error (.New "the ending date is invalid".toList), []) := by
  have hbad : isValidDate startDate = false ∨ (endDate ≠ [] ∧ isValidDate endDate = false) →
      (∃ text, (GetEventsByDate client Unmarshal startDate endDate).1 = .error (.New text)) ∧
        (GetEventsByDate client Unmarshal startDate endDate).2 = [] := by
    intro h
    by_cases hs : isValidDate startDate = false
    · rw [GetEventsByDate_invalid_start client Unmarshal startDate endDate hs]
      exact ⟨⟨_, rfl⟩, rfl⟩
    · have hs2 : isValidDate startDate = true := by simpa using hs
      rcases h with h | ⟨h1, h2⟩
      · exact absurd h hs
      · rw [GetEventsByDate_invalid_end client Unmarshal startDate endDate hs2 h1 h2]
        exact ⟨⟨_, rfl⟩, rfl⟩
  refine ⟨⟨?_, hbad⟩, ?_, ?_, ?_⟩
  · rintro ⟨-, hsent⟩
    by_contra hc
    rw [GetEventsByDate_valid_sent client Unmarshal startDate endDate hc] at hsent
    exact absurd hsent (by simp)
  · by_cases hc : isValidDate startDate = false ∨ (endDate ≠ [] ∧ isValidDate endDate = false)
    · rw [if_pos hc]
      exact (hbad hc).2
    · rw [if_neg hc]
      exact GetEventsByDate_valid_sent client Unmarshal startDate endDate hc
  · exact GetEventsByDate_invalid_start client Unmarshal [] [] (by decide)
  · exact GetEventsByDate_invalid_end client Unmarshal _ _ (by decide) (by decide) (by decide)

/-! ## Theorems: a failing transport -/

theorem sendRequest_fail {ε : Type} (client : HTTPClient ε) (e : ε) (url : GoString)
    (h : client.Do url = .error e ∨ client.Do url = .ok (.error e)) :
    sendRequest client url = (.error (.external e), [url]) := by
  unfold sendRequest
  rcases h with h | h <;> rw [h]

theorem sendRequestToEonetApi_fail {ε : Type} (client : HTTPClient ε) (e : ε)
    (url : GoString) (h : client.Do url = .error e ∨ client.Do url = .ok (.error e)) :
    sendRequestToEonetApi client url = (.error (.external e), [url]) := by
  unfold sendRequestToEonetApi
  rcases h with h | h <;> rw [h]

theorem queryEventsApi_fail {ε κ : Type} (client : HTTPClient ε)
    (Unmarshal : GoString → Except ε κ) (e : ε) (url : GoString)
    (h : client.Do url = .error e ∨ client.Do url = .ok (.error e)) :
    queryEventsApi client Unmarshal url = (.error (.external e), [url]) := by
  unfold queryEventsApi
  rw [sendRequest_fail client e url h]

theorem queryCategoriesApi_fail {ε κ : Type} (client : HTTPClient ε)
    (Unmarshal : GoString → Except ε κ) (e : ε) (url : GoString)
    (h : client.Do url = .error e ∨ client.Do url = .ok (.error e)) :
    queryCategoriesApi client Unmarshal url = (.error (.external e), [url]) := by
  unfold queryCategoriesApi
  rw [sendRequest_fail client e url h]

/-- C11: when the GET of the transport fails with `e` (at `client.Do`, or while
the body is read), each of GetEvents, GetGeoJsonEvents, GetRecentOpenEvents,
GetEventsBySourceID, GetSources, GetCategories, GetEventsByCategoryID, and
GetEventsByDate on valid dates, returns the error `e` itself and no result,
after that single request. -/
theorem transport_error_is_returned {ε κ : Type} (client : HTTPClient ε)
    (Unmarshal : GoString → Except ε κ) (e : ε)
    (hfail : ∀ url, client.Do url = .error e ∨ client.Do url = .ok (.error e))
    (query : EventsGo.EventsQueryParameters)
    (limit sourceID categoryID startDate endDate : GoString)
    (hstart : isValidDate startDate = true)
    (hend : endDate = [] ∨ isValidDate endDate = true) :
    EventsGo.GetEvents client query =
      (.error (.external e), [(EventsGo.createEventsApiUrl query).String]) ∧
    EventsGo.GetGeoJsonEvents client query =
      (.error (.external e), [(EventsGo.createGeoJsonEventsApiUrl query).String]) ∧
    GetRecentOpenEvents client Unmarshal limit =
      (.error (.external e), [(createEventsApiUrl { limit := limit }).String]) ∧
    GetEventsBySourceID client Unmarshal sourceID =
      (.error (.external e), [(createEventsApiUrl { source := sourceID }).String]) ∧
    GetSources client Unmarshal = (.error (.external e), [baseSourcesUrl]) ∧
    GetCategories client Unmarshal = (.error (.external e), [baseCategoriesUrl]) ∧
    GetEventsByCategoryID client Unmarshal categoryID =
      (.error (.external e),
        [(createCategoriesApiUrl { category := categoryID }).String]) ∧
    GetEventsByDate client Unmarshal startDate endDate =
      (.error (.external e),
        [(createEventsApiUrl { start := startDate, «end» := endDate }).String]) := by
  refine ⟨?_, ?_, ?_, ?_, ?_, ?_, ?_, ?_⟩
  · unfold EventsGo.GetEvents
    simp only [sendRequestToEonetApi_fail client e _ (hfail _)]
  · unfold EventsGo.GetGeoJsonEvents
    simp only [sendRequestToEonetApi_fail client e _ (hfail _)]
  · unfold GetRecentOpenEvents
    simp only [queryEventsApi_fail client Unmarshal e _ (hfail _)]
  · unfold GetEventsBySourceID
    simp only [queryEventsApi_fail client Unmarshal e _ (hfail _)]
  · unfold GetSources querySourcesApi
    simp only [sendRequest_fail client e _ (hfail _)]
  · unfold GetCategories
    simp only [queryCategoriesApi_fail client Unmarshal e _ (hfail _)]
  · unfold GetEventsByCategoryID
    simp only [queryCategoriesApi_fail client Unmarshal e _ (hfail _)]
  · have he : ¬ (endDate ≠ [] ∧ (!isValidDate endDate) = true) := by
      rintro ⟨h1, h2⟩
      rcases hend with h | h
      · exact h1 h
      · rw [h] at h2
        exact absurd h2 (by decide)
    unfold GetEventsByDate
    simp only [hstart, Bool.not_true, Bool.false_eq_true, if_false, he,
      queryEventsApi_fail client Unmarshal e _ (hfail _)]

theorem transport_error_is_returned_witness :
    ((∀ url : GoString,
        (⟨fun _ => .error 7⟩ : HTTPClient Nat).Do url = .error 7 ∨
        (⟨fun _ => .error 7⟩ : HTTPClient Nat).Do url = .ok (.error 7)) ∧
      isValidDate "2021-03-01".toList = true ∧
      ("".toList = [] ∨ isValidDate "".toList = true)) ∧
    GetSources (⟨fun _ => .error 7⟩ : HTTPClient Nat)
        (fun body => (.ok body : Except Nat GoString)) =
      (.error (.external 7), [baseSourcesUrl]) :=
  ⟨⟨fun _ => Or.inl rfl, by decide, Or.inl rfl⟩,
   (transport_error_is_returned (⟨fun _ => .error 7⟩ : HTTPClient Nat)
      (fun body => (.ok body : Except Nat GoString)) 7 (fun _ => Or.inl rfl)
      {} [] [] [] "2021-03-01".toList "".toList (by decide) (Or.inl rfl)).2.2.2.2.1⟩

/-! ## Theorems: the URL builders -/

theorem Values.index_Set (v : Values) (key value k : GoString) :
    (v.Set key value).index k = if k = key then [value] else v.index k := by
  induction v with
  | nil =>
    by_cases h : k = key
    · simp [Values.Set, Values.index, h]
    · have h2 : ¬ key = k := fun e => h e.symm
      simp [Values.Set, Values.index, h, h2]
  | cons e rest ih =>
    obtain ⟨k1, vs⟩ := e
    by_cases h1 : k1 = key
    · subst h1
      by_cases h : k = k1
      · subst h
        simp [Values.Set, Values.index]
      · have h2 : ¬ k1 = k := fun e => h e.symm
        simp [Values.Set, Values.index, h, h2]
    · by_cases h : k = key
      · subst h
        simp [Values.Set, Values.index, h1, ih]
      · by_cases h3 : k1 = k
        · simp [Values.Set, Values.index, h1, h, h3]
        · simp [Values.Set, Values.index, h1, h, h3, ih]

theorem Values.keys_Set (v : Values) (key value k : GoString) :
    k ∈ (v.Set key value).keys ↔ k = key ∨ k ∈ v.keys := by
  induction v with
  | nil => simp [Values.Set, Values.keys]
  | cons e rest ih =>
    obtain ⟨k1, vs⟩ := e
    by_cases h1 : k1 = key
    · subst h1
      simp [Values.Set, Values.keys]
    · have ih2 : k ∈ List.map Prod.fst (Values.Set rest key value) ↔
          k = key ∨ k ∈ List.map Prod.fst rest := ih
      simp only [Values.Set, h1, if_false, Values.keys, List.map_cons, List.mem_cons, ih2]
      tauto

theorem Values.mem_encodedPairs (v : Values) (k x : GoString) :
    (k, x) ∈ v.encodedPairs ↔ k ∈ v.keys ∧ x ∈ v.index k := by
  unfold Values.encodedPairs Values.sortedKeys
  simp only [List.mem_flatMap, List.mem_map, Prod.mk.injEq]
  constructor
  · rintro ⟨a, ha, b, hb, rfl, rfl⟩
    exact ⟨(List.perm_insertionSort _ _).mem_iff.1 ha, hb⟩
  · rintro ⟨ha, hb⟩
    exact ⟨k, (List.perm_insertionSort _ _).mem_iff.2 ha, x, hb, rfl, rfl⟩

theorem Values.mem_pairs_Set (v : Values) (key value k x : GoString) :
    (k, x) ∈ (v.Set key value).encodedPairs ↔
      (k = key ∧ x = value) ∨ (k ≠ key ∧ (k, x) ∈ v.encodedPairs) := by
  simp only [Values.mem_encodedPairs, Values.keys_Set, Values.index_Set]
  by_cases h : k = key
  · simp [h]
  · simp [h]

theorem Values.mem_pairs_cond_Set (c : Prop) [Decidable c] (v : Values)
    (key value k x : GoString) :
    (k, x) ∈ (if c then v.Set key value else v).encodedPairs ↔
      (c ∧ k = key ∧ x = value) ∨ ((¬ c ∨ k ≠ key) ∧ (k, x) ∈ v.encodedPairs) := by
  by_cases hc : c
  · simp only [hc, if_true, Values.mem_pairs_Set, true_and, not_true_eq_false, false_or]
  · simp only [hc, if_false, false_and, false_or, not_false_eq_true, true_or, true_and]

theorem Values.not_mem_pairs_nil (k x : GoString) :
    ¬ (k, x) ∈ Values.encodedPairs [] := by
  simp [Values.mem_encodedPairs, Values.keys]

theorem Values.mem_pairs_ite (c : Prop) [Decidable c] (a b : Values) (k x : GoString) :
    (k, x) ∈ (if c then a else b).encodedPairs ↔
      (c ∧ (k, x) ∈ a.encodedPairs) ∨ (¬ c ∧ (k, x) ∈ b.encodedPairs) := by
  by_cases hc : c <;> simp [hc]

theorem mem_omit_empty_values (q : EventsGo.EventsQueryParameters) (k x : GoString) :
    (k, x) ∈ (EventsGo.eventsValues q).encodedPairs ↔
      (k = "source".toList ∧ q.Source ≠ [] ∧ x = q.Source) ∨
      (k = "status".toList ∧ q.Status ≠ [] ∧ x = q.Status) ∨
      (k = "limit".toList ∧ q.Limit > 0 ∧ x = Sprint q.Limit) ∨
      (k = "days".toList ∧ q.Days > 0 ∧ x = Sprint q.Days) ∨
      (k = "start".toList ∧ q.Start ≠ [] ∧ x = q.Start) ∨
      (k = "end".toList ∧ q.Start ≠ [] ∧ q.End ≠ [] ∧ x = q.End) ∨
      (k = "magID".toList ∧ q.MagID ≠ [] ∧ x = q.MagID) ∨
      (k = "magMin".toList ∧ q.MagMin ≠ [] ∧ x = q.MagMin) ∨
      (k = "magMax".toList ∧ q.MagMax ≠ [] ∧ x = q.MagMax) ∨
      (k = "bbox".toList ∧ q.Bbox ≠ [] ∧ x = q.Bbox) := by
  unfold EventsGo.eventsValues
  simp only [URL.Query, Values.mem_pairs_cond_Set]
  rw [Values.mem_pairs_ite]
  simp only [Values.mem_pairs_cond_Set, Values.mem_pairs_Set, Values.not_mem_pairs_nil]
  by_cases h1 : k = "source".toList
  · subst h1
    simp
    tauto
  by_cases h2 : k = "status".toList
  · subst h2
    simp
    tauto
  by_cases h3 : k = "limit".toList
  · subst h3
    simp
    tauto
  by_cases h4 : k = "days".toList
  · subst h4
    simp
    tauto
  by_cases h5 : k = "start".toList
  · subst h5
    simp
  by_cases h6 : k = "end".toList
  · subst h6
    simp
  by_cases h7 : k = "magID".toList
  · subst h7
    simp
  by_cases h8 : k = "magMin".toList
  · subst h8
    simp
  by_cases h9 : k = "magMax".toList
  · subst h9
    simp
  by_cases h10 : k = "bbox".toList
  · subst h10
    simp
  simp at h1 h2 h3 h4 h5 h6 h7 h8 h9 h10
  simp [h1, h2, h3, h4, h5, h6, h7, h8, h9, h10]

theorem mem_simplified_values (g : eventsQuery) (k x : GoString) :
    (k, x) ∈ (eventsValues g).encodedPairs ↔
      (k = "source".toList ∧ x = g.source) ∨
      (k = "status".toList ∧ x = g.status) ∨
      (k = "limit".toList ∧ x = g.limit) ∨
      (k = "days".toList ∧ x = g.days) ∨
      (k = "start".toList ∧ g.start ≠ [] ∧ x = g.start) ∨
      (k = "end".toList ∧ g.start ≠ [] ∧ x = g.end) ∨
      (k = "magID".toList ∧ x = g.magID) ∨
      (k = "magMin".toList ∧ x = g.magMin) ∨
      (k = "magMax".toList ∧ x = g.magMax) ∨
      (k = "bbox".toList ∧ x = g.bbox) := by
  unfold eventsValues
  simp only [URL.Query, Values.mem_pairs_Set]
  rw [Values.mem_pairs_ite]
  simp only [Values.mem_pairs_Set, Values.not_mem_pairs_nil]
  by_cases h1 : k = "source".toList
  · subst h1
    simp
    tauto
  by_cases h2 : k = "status".toList
  · subst h2
    simp
    tauto
  by_cases h3 : k = "limit".toList
  · subst h3
    simp
    tauto
  by_cases h4 : k = "days".toList
  · subst h4
    simp
    tauto
  by_cases h5 : k = "start".toList
  · subst h5
    simp
  by_cases h6 : k = "end".toList
  · subst h6
    simp
  by_cases h7 : k = "magID".toList
  · subst h7
    simp
  by_cases h8 : k = "magMin".toList
  · subst h8
    simp
  by_cases h9 : k = "magMax".toList
  · subst h9
    simp
  by_cases h10 : k = "bbox".toList
  · subst h10
    simp
  simp at h1 h2 h3 h4 h5 h6 h7 h8 h9 h10
  simp [h1, h2, h3, h4, h5, h6, h7, h8, h9, h10]

/-- C7: the query of the URL built by either omit-empty builder of events.go is
the encoding of the pairs of one map, and a pair (key, value) is in it exactly
when the key is source, status, start, magID, magMin, magMax or bbox with a
non-empty field of that name as value, or limit (days) with a positive number
whose decimal digits are the value, or end with both start and end non-empty;
no other key appears. -/
theorem omit_empty_query_pairs (q : EventsGo.EventsQueryParameters) (k x : GoString) :
    (EventsGo.createEventsApiUrl q).RawQuery = (EventsGo.eventsValues q).Encode ∧
    (EventsGo.createGeoJsonEventsApiUrl q).RawQuery = (EventsGo.eventsValues q).Encode ∧
    ((k, x) ∈ (EventsGo.eventsValues q).encodedPairs ↔
      (k = "source".toList ∧ q.Source ≠ [] ∧ x = q.Source) ∨
      (k = "status".toList ∧ q.Status ≠ [] ∧ x = q.Status) ∨
      (k = "limit".toList ∧ q.Limit > 0 ∧ x = Sprint q.Limit) ∨
      (k = "days".toList ∧ q.Days > 0 ∧ x = Sprint q.Days) ∨
      (k = "start".toList ∧ q.Start ≠ [] ∧ x = q.Start) ∨
      (k = "end".toList ∧ q.Start ≠ [] ∧ q.End ≠ [] ∧ x = q.End) ∨
      (k = "magID".toList ∧ q.MagID ≠ [] ∧ x = q.MagID) ∨
      (k = "magMin".toList ∧ q.MagMin ≠ [] ∧ x = q.MagMin) ∨
      (k = "magMax".toList ∧ q.MagMax ≠ [] ∧ x = q.MagMax) ∨
      (k = "bbox".toList ∧ q.Bbox ≠ [] ∧ x = q.Bbox)) :=
  ⟨rfl, rfl, mem_omit_empty_values q k x⟩

/-- C8: in the query built by each of the three events builders, a pair with
key end is present only if the start parameter is not empty, and then the pair
(start, start parameter) is present too. -/
theorem end_only_with_start (q : EventsGo.EventsQueryParameters) (g : eventsQuery)
    (x : GoString) :
    (("end".toList, x) ∈ (EventsGo.eventsValues q).encodedPairs →
      q.Start ≠ [] ∧ ("start".toList, q.Start) ∈ (EventsGo.eventsValues q).encodedPairs) ∧
    (("end".toList, x) ∈ (EventsGo.geoJsonEventsValues q).encodedPairs →
      q.Start ≠ [] ∧
        ("start".toList, q.Start) ∈ (EventsGo.geoJsonEventsValues q).encodedPairs) ∧
    (("end".toList, x) ∈ (eventsValues g).encodedPairs →
      g.start ≠ [] ∧ ("start".toList, g.start) ∈ (eventsValues g).encodedPairs) := by
  have hgeo : EventsGo.geoJsonEventsValues q = EventsGo.eventsValues q := rfl
  rw [hgeo]
  have h1 : ("end".toList, x) ∈ (EventsGo.eventsValues q).encodedPairs →
      q.Start ≠ [] ∧ ("start".toList, q.Start) ∈ (EventsGo.eventsValues q).encodedPairs := by
    intro h
    rw [mem_omit_empty_values] at h
    have hs : q.Start ≠ [] := by
      simp at h
      exact h.1
    refine ⟨hs, ?_⟩
    rw [mem_omit_empty_values]
    simp [hs]
  have h2 : ("end".toList, x) ∈ (eventsValues g).encodedPairs →
      g.start ≠ [] ∧ ("start".toList, g.start) ∈ (eventsValues g).encodedPairs := by
    intro h
    rw [mem_simplified_values] at h
    have hs : g.start ≠ [] := by
      simp at h
      exact h.1
    refine ⟨hs, ?_⟩
    rw [mem_simplified_values]
    simp [hs]
  exact ⟨h1, h1, h2⟩

theorem end_only_with_start_witness :
    (("end".toList, "2021-02-01".toList) ∈
        (EventsGo.eventsValues
          { Start := "2021-01-01".toList, End := "2021-02-01".toList }).encodedPairs ∧
      ("end".toList, "2021-02-01".toList) ∈
        (EventsGo.geoJsonEventsValues
          { Start := "2021-01-01".toList, End := "2021-02-01".toList }).encodedPairs ∧
      ("end".toList, "2021-02-01".toList) ∈
        (eventsValues
          { start := "2021-01-01".toList, «end» := "2021-02-01".toList }).encodedPairs) ∧
    ("2021-01-01".toList ≠ [] ∧
      ("start".toList, "2021-01-01".toList) ∈
        (EventsGo.eventsValues
          { Start := "2021-01-01".toList, End := "2021-02-01".toList }).encodedPairs) ∧
    ("2021-01-01".toList ≠ [] ∧
      ("start".toList, "2021-01-01".toList) ∈
        (EventsGo.geoJsonEventsValues
          { Start := "2021-01-01".toList, End := "2021-02-01".toList }).encodedPairs) ∧
    ("2021-01-01".toList ≠ [] ∧
      ("start".toList, "2021-01-01".toList) ∈
        (eventsValues
          { start := "2021-01-01".toList, «end» := "2021-02-01".toList }).encodedPairs) :=
  ⟨by decide,
   (end_only_with_start { Start := "2021-01-01".toList, End := "2021-02-01".toList }
      { start := "2021-01-01".toList, «end» := "2021-02-01".toList }
      "2021-02-01".toList).1 (by decide),
   (end_only_with_start { Start := "2021-01-01".toList, End := "2021-02-01".toList }
      { start := "2021-01-01".toList, «end» := "2021-02-01".toList }
      "2021-02-01".toList).2.1 (by decide),
   (end_only_with_start { Start := "2021-01-01".toList, End := "2021-02-01".toList }
      { start := "2021-01-01".toList, «end» := "2021-02-01".toList }
      "2021-02-01".toList).2.2 (by decide)⟩

theorem escape_digits (l : GoString) (h : ∀ c ∈ l, c.isDigit = true) (mode : encoding) :
    escape l mode = l := by
  induction l with
  | nil => rfl
  | cons c cs ih =>
    have hc : c.isDigit = true := h c (by simp)
    have hd := (digit_iff c).2 hc
    have hsp : c ≠ ' ' := by
      rintro rfl
      exact absurd hc (by decide)
    have hesc : shouldEscape c mode = false := by
      unfold shouldEscape
      simp [hd]
    have ih2 := ih (fun d hd => h d (by simp [hd]))
    unfold escape at ih2 ⊢
    simp [List.flatMap_cons, hsp, hesc, ih2]

theorem eventsValues_limit_pairs (l : GoString) :
    (eventsValues { limit := l }).encodedPairs =
      [("bbox".toList, []), ("days".toList, []), ("limit".toList, l), ("magID".toList, []),
       ("magMax".toList, []), ("magMin".toList, []), ("source".toList, []),
       ("status".toList, [])] := by
  rfl

theorem createEventsApiUrl_eq (g : eventsQuery) :
    createEventsApiUrl g =
      { Scheme := "https".toList, Host := "eonet.sci.gsfc.nasa.gov".toList,
        Path := "/api/v3/events".toList, RawQuery := (eventsValues g).Encode } := rfl

theorem createEventsApiUrl_RawQuery (g : eventsQuery) :
    (createEventsApiUrl g).RawQuery = (eventsValues g).Encode := rfl

theorem escape_keys :
    QueryEscape "bbox".toList = "bbox".toList ∧ QueryEscape "days".toList = "days".toList ∧
    QueryEscape "limit".toList = "limit".toList ∧ QueryEscape "magID".toList = "magID".toList ∧
    QueryEscape "magMax".toList = "magMax".toList ∧
    QueryEscape "magMin".toList = "magMin".toList ∧
    QueryEscape "source".toList = "source".toList ∧
    QueryEscape "status".toList = "status".toList ∧ QueryEscape [] = [] := by
  decide

theorem String_events (rawQuery : GoString) (h : rawQuery ≠ []) :
    URL.String ⟨"https".toList, "eonet.sci.gsfc.nasa.gov".toList, "/api/v3/events".toList,
        rawQuery⟩ =
      "https://eonet.sci.gsfc.nasa.gov/api/v3/events?".toList ++ rawQuery := by
  have hhost : escape "eonet.sci.gsfc.nasa.gov".toList .encodeHost =
      "eonet.sci.gsfc.nasa.gov".toList := by decide
  have hpath : escape "/api/v3/events".toList .encodePath = "/api/v3/events".toList := by
    decide
  have hstar : ¬ "/api/v3/events".toList = "*".toList := by decide
  unfold URL.String URL.EscapedPath
  simp only [hhost, hpath, hstar, if_false]
  simp [h]

theorem simplified_query (l : GoString) (h : ∀ c ∈ l, c.isDigit = true) :
    (eventsValues { limit := l }).Encode =
      "bbox=&days=&limit=".toList ++ l ++
        "&magID=&magMax=&magMin=&source=&status=".toList := by
  obtain ⟨k1, k2, k3, k4, k5, k6, k7, k8, k0⟩ := escape_keys
  have hl : QueryEscape l = l := escape_digits l h _
  unfold Values.Encode
  rw [eventsValues_limit_pairs]
  simp only [List.map_cons, List.map_nil, k1, k2, k3, k4, k5, k6, k7, k8, k0, hl]
  simp [List.intercalate]

theorem simplified_String (l : GoString) (h : ∀ c ∈ l, c.isDigit = true) :
    (createEventsApiUrl { limit := l }).String =
      "https://eonet.sci.gsfc.nasa.gov/api/v3/events?bbox=&days=&limit=".toList ++ l ++
        "&magID=&magMax=&magMin=&source=&status=".toList := by
  have hq := simplified_query l h
  have hne : (eventsValues { limit := l }).Encode ≠ [] := by
    rw [hq]
    simp
  rw [createEventsApiUrl_eq, String_events _ hne, hq]
  simp

theorem golden_url :
    (createEventsApiUrl { limit := "5".toList }).String =
      "https://eonet.sci.gsfc.nasa.gov/api/v3/events?bbox=&days=&limit=5&magID=&magMax=&magMin=&source=&status=".toList := by
  decide

/-- C9: the simplified builder of goeonet.go, given limit `5` and nothing else,
builds exactly the URL
`https://eonet.sci.gsfc.nasa.gov/api/v3/events?bbox=&days=&limit=5&magID=&magMax=&magMin=&source=&status=`;
and for every limit made of digits the query is `limit=` with that limit among
explicit empty parameters for bbox, days, magID, magMax, magMin, source and
status, without start or end. -/
theorem simplified_builder_limit (l : GoString) (h : ∀ c ∈ l, c.isDigit = true) :
    (createEventsApiUrl { limit := "5".toList }).String =
      "https://eonet.sci.gsfc.nasa.gov/api/v3/events?bbox=&days=&limit=5&magID=&magMax=&magMin=&source=&status=".toList ∧
    (eventsValues { limit := l }).encodedPairs =
      [("bbox".toList, []), ("days".toList, []), ("limit".toList, l), ("magID".toList, []),
       ("magMax".toList, []), ("magMin".toList, []), ("source".toList, []),
       ("status".toList, [])] ∧
    (createEventsApiUrl { limit := l }).RawQuery =
      "bbox=&days=&limit=".toList ++ l ++ "&magID=&magMax=&magMin=&source=&status=".toList ∧
    (createEventsApiUrl { limit := l }).String =
      "https://eonet.sci.gsfc.nasa.gov/api/v3/events?bbox=&days=&limit=".toList ++ l ++
        "&magID=&magMax=&magMin=&source=&status=".toList :=
  ⟨golden_url, eventsValues_limit_pairs l,
    (createEventsApiUrl_RawQuery _).trans (simplified_query l h), simplified_String l h⟩

theorem simplified_builder_limit_witness :
    (∀ c ∈ "25".toList, c.isDigit = true) ∧
    (createEventsApiUrl { limit := "25".toList }).String =
      "https://eonet.sci.gsfc.nasa.gov/api/v3/events?bbox=&days=&limit=25&magID=&magMax=&magMin=&source=&status=".toList :=
  ⟨by decide, (simplified_builder_limit "25".toList (by decide)).2.2.2⟩

/-- C10: the URL built for a category has the path `/api/v3/categories/`
followed by the category identifier, and the query `days=&limit=&source=&status=`
whatever the identifier is. -/
theorem category_in_path_only (categoryID : GoString) :
    (createCategoriesApiUrl { category := categoryID }).Path =
      "/api/v3/categories/".toList ++ categoryID ∧
    (createCategoriesApiUrl { category := categoryID }).RawQuery =
      "days=&limit=&source=&status=".toList :=
  ⟨rfl, rfl⟩

/-! ## Theorems: the order of the keys -/

theorem stringLE_total (a b : GoString) : stringLE a b = true ∨ stringLE b a = true := by
  induction a generalizing b with
  | nil => exact Or.inl (by simp [stringLE])
  | cons x xs ih =>
    cases b with
    | nil => exact Or.inr (by simp [stringLE])
    | cons y ys =>
      by_cases h1 : x.toNat < y.toNat
      · exact Or.inl (by simp [stringLE, h1])
      · by_cases h2 : y.toNat < x.toNat
        · exact Or.inr (by simp [stringLE, h2])
        · rcases ih ys with h | h
          · exact Or.inl (by simp [stringLE, h1, h2, h])
          · exact Or.inr (by simp [stringLE, h1, h2, h])

theorem stringLE_trans (a b c : GoString) (hab : stringLE a b = true)
    (hbc : stringLE b c = true) : stringLE a c = true := by
  induction a generalizing b c with
  | nil => simp [stringLE]
  | cons x xs ih =>
    cases b with
    | nil => simp [stringLE] at hab
    | cons y ys =>
      cases c with
      | nil => simp [stringLE] at hbc
      | cons z zs =>
        simp only [stringLE] at hab hbc ⊢
        by_cases h1 : x.toNat < y.toNat
        · by_cases h2 : y.toNat < z.toNat
          · have : x.toNat < z.toNat := by omega
            simp [this]
          · by_cases h3 : z.toNat < y.toNat
            · simp [h2, h3] at hbc
            · have : x.toNat < z.toNat := by omega
              simp [this]
        · by_cases h1b : y.toNat < x.toNat
          · simp [h1, h1b] at hab
          · simp only [h1, h1b, if_false] at hab
            by_cases h2 : y.toNat < z.toNat
            · have : x.toNat < z.toNat := by omega
              simp [this]
            · by_cases h3 : z.toNat < y.toNat
              · simp [h2, h3] at hbc
              · simp only [h2, h3, if_false] at hbc
                have e1 : ¬ x.toNat < z.toNat := by omega
                have e2 : ¬ z.toNat < x.toNat := by omega
                simp only [e1, e2, if_false]
                exact ih ys zs hab hbc

theorem stringLE_antisymm (a b : GoString) (hab : stringLE a b = true)
    (hba : stringLE b a = true) : a = b := by
  induction a generalizing b with
  | nil =>
    cases b with
    | nil => rfl
    | cons y ys => simp [stringLE] at hba
  | cons x xs ih =>
    cases b with
    | nil => simp [stringLE] at hab
    | cons y ys =>
      simp only [stringLE] at hab hba
      by_cases h1 : x.toNat < y.toNat
      · have h2 : ¬ y.toNat < x.toNat := by omega
        simp [h1, h2] at hba
      · by_cases h2 : y.toNat < x.toNat
        · simp [h1, h2] at hab
        · simp only [h1, h2, if_false] at hab hba
          have hxy : x = y := by
            apply Char.ext
            apply UInt32.ext
            show x.toNat = y.toNat
            omega
          rw [hxy, ih ys hab hba]

theorem sortedKeys_strict (v : Values) (h : v.keys.Nodup) :
    List.Pairwise (fun a b => stringLess a b = true) v.sortedKeys := by
  haveI : IsTotal GoString (fun a b => stringLE a b = true) := ⟨stringLE_total⟩
  haveI : IsTrans GoString (fun a b => stringLE a b = true) := ⟨stringLE_trans⟩
  have hs : List.Pairwise (fun a b => stringLE a b = true) v.sortedKeys :=
    List.sorted_insertionSort _ _
  have hn : List.Pairwise (fun a b => a ≠ b) v.sortedKeys :=
    (List.perm_insertionSort _ _).nodup_iff.2 h
  refine (hs.and hn).imp ?_
  rintro a b ⟨hab, hne⟩
  unfold stringLess
  cases hba : stringLE b a with
  | false => rfl
  | true => exact absurd (stringLE_antisymm a b hab hba) hne

theorem Values.index_singleton (v : Values) (h : ∀ e ∈ v, ∃ x, e.2 = [x]) (k : GoString)
    (hk : k ∈ v.keys) : ∃ x, v.index k = [x] := by
  induction v with
  | nil => simp [Values.keys] at hk
  | cons e rest ih =>
    obtain ⟨k1, vs⟩ := e
    by_cases h1 : k1 = k
    · obtain ⟨x, hx⟩ := h (k1, vs) (by simp)
      exact ⟨x, by simpa [Values.index, h1] using hx⟩
    · have hk2 : k ∈ Values.keys rest := by
        have h2 : ¬ k = k1 := fun e => h1 e.symm
        simpa [Values.keys, h2] using hk
      obtain ⟨x, hx⟩ := ih (fun e he => h e (by simp [he])) hk2
      exact ⟨x, by simpa [Values.index, h1] using hx⟩

theorem flatMap_singleton_keys (v : Values) (ks : List GoString)
    (h : ∀ k ∈ ks, ∃ x, v.index k = [x]) :
    (ks.flatMap fun k => (v.index k).map fun value => (k, value)).map Prod.fst = ks := by
  induction ks with
  | nil => rfl
  | cons k rest ih =>
    obtain ⟨x, hx⟩ := h k (by simp)
    have ih2 := ih (fun k2 hk2 => h k2 (by simp [hk2]))
    simp only [List.flatMap_cons, List.map_append, ih2, hx, List.map_cons, List.map_nil,
      List.singleton_append]

theorem Values.encodedKeys_strict (v : Values) (h : v.wellFormed) :
    List.Pairwise (fun a b => stringLess a b = true) v.encodedKeys := by
  have hkeys : v.encodedKeys = v.sortedKeys := by
    unfold Values.encodedKeys Values.encodedPairs
    apply flatMap_singleton_keys
    intro k hk
    apply Values.index_singleton v h.2 k
    exact (List.perm_insertionSort _ _).mem_iff.1 hk
  rw [hkeys]
  exact sortedKeys_strict v h.1

theorem Values.wellFormed_nil : Values.wellFormed [] := by
  simp [Values.wellFormed, Values.keys]

theorem Values.wellFormed_Set (v : Values) (key value : GoString) (h : v.wellFormed) :
    (v.Set key value).wellFormed := by
  induction v with
  | nil => simp [Values.wellFormed, Values.Set, Values.keys]
  | cons e rest ih =>
    obtain ⟨k1, vs⟩ := e
    obtain ⟨hn, hs⟩ := h
    have hn2 : k1 ∉ Values.keys rest ∧ (Values.keys rest).Nodup := by
      simpa [Values.keys] using hn
    by_cases h1 : k1 = key
    · refine ⟨?_, ?_⟩
      · simpa [Values.Set, h1, Values.keys] using hn
      · intro e he
        simp only [Values.Set, h1, if_true, List.mem_cons] at he
        rcases he with he | he
        · exact ⟨value, by rw [he]⟩
        · exact hs e (by simp [he])
    · obtain ⟨ihn, ihs⟩ := ih ⟨hn2.2, fun e he => hs e (by simp [he])⟩
      have hnot : k1 ∉ Values.keys (Values.Set rest key value) := by
        rw [Values.keys_Set]
        rintro (h2 | h2)
        · exact h1 h2
        · exact hn2.1 h2
      refine ⟨?_, ?_⟩
      · have : Values.keys (Values.Set ((k1, vs) :: rest) key value) =
            k1 :: Values.keys (Values.Set rest key value) := by
          simp [Values.Set, h1, Values.keys]
        rw [this]
        exact List.nodup_cons.2 ⟨hnot, ihn⟩
      · intro e he
        simp only [Values.Set, h1, if_false, List.mem_cons] at he
        rcases he with he | he
        · exact hs e (by simp [he])
        · exact ihs e he

theorem Values.wellFormed_ite (c : Prop) [Decidable c] (a b : Values) (ha : a.wellFormed)
    (hb : b.wellFormed) : (if c then a else b).wellFormed := by
  by_cases hc : c <;> simp [hc, ha, hb]

theorem Values.wellFormed_cond_Set (c : Prop) [Decidable c] (v : Values)
    (key value : GoString) (h : v.wellFormed) :
    (if c then v.Set key value else v).wellFormed := by
  by_cases hc : c
  · simp only [hc, if_true]
    exact Values.wellFormed_Set v key value h
  · simp only [hc, if_false]
    exact h

theorem omit_empty_wellFormed (q : EventsGo.EventsQueryParameters) :
    (EventsGo.eventsValues q).wellFormed := by
  unfold EventsGo.eventsValues
  simp only [URL.Query]
  apply Values.wellFormed_cond_Set
  apply Values.wellFormed_cond_Set
  apply Values.wellFormed_cond_Set
  apply Values.wellFormed_cond_Set
  apply Values.wellFormed_ite
  · apply Values.wellFormed_cond_Set
    apply Values.wellFormed_Set
    apply Values.wellFormed_cond_Set
    apply Values.wellFormed_cond_Set
    apply Values.wellFormed_cond_Set
    apply Values.wellFormed_cond_Set
    exact Values.wellFormed_nil
  · apply Values.wellFormed_cond_Set
    apply Values.wellFormed_cond_Set
    apply Values.wellFormed_cond_Set
    apply Values.wellFormed_cond_Set
    exact Values.wellFormed_nil

theorem simplified_wellFormed (g : eventsQuery) : (eventsValues g).wellFormed := by
  unfold eventsValues
  simp only [URL.Query]
  apply Values.wellFormed_Set
  apply Values.wellFormed_Set
  apply Values.wellFormed_Set
  apply Values.wellFormed_Set
  apply Values.wellFormed_ite
  · apply Values.wellFormed_Set
    apply Values.wellFormed_Set
    apply Values.wellFormed_Set
    apply Values.wellFormed_Set
    apply Values.wellFormed_Set
    apply Values.wellFormed_Set
    exact Values.wellFormed_nil
  · apply Values.wellFormed_Set
    apply Values.wellFormed_Set
    apply Values.wellFormed_Set
    apply Values.wellFormed_Set
    exact Values.wellFormed_nil

theorem categories_wellFormed (c : categoriesQuery) : (categoriesValues c).wellFormed := by
  unfold categoriesValues
  simp only [URL.Query]
  apply Values.wellFormed_Set
  apply Values.wellFormed_Set
  apply Values.wellFormed_Set
  apply Values.wellFormed_Set
  exact Values.wellFormed_nil

set_option maxRecDepth 10000 in
theorem ten_keys_ascending :
    List.Pairwise (fun a b => stringLess a b = true)
      ["bbox".toList, "days".toList, "end".toList, "limit".toList, "magID".toList,
       "magMax".toList, "magMin".toList, "source".toList, "start".toList,
       "status".toList] := by
  decide

/-- C12: in the query that each builder serializes (both builders of events.go,
`createEventsApiUrl` and `createCategoriesApiUrl` of goeonet.go) the keys come
in strictly ascending byte order, so each at most once, whatever the parameters
and whatever the order of the `Set` calls; the ten keys are ordered
bbox, days, end, limit, magID, magMax, magMin, source, start, status. -/
theorem query_keys_strictly_ascending (q : EventsGo.EventsQueryParameters) (g : eventsQuery)
    (c : categoriesQuery) :
    ((EventsGo.createEventsApiUrl q).RawQuery = (EventsGo.eventsValues q).Encode ∧
      List.Pairwise (fun a b => stringLess a b = true)
        (EventsGo.eventsValues q).encodedKeys) ∧
    ((EventsGo.createGeoJsonEventsApiUrl q).RawQuery =
        (EventsGo.geoJsonEventsValues q).Encode ∧
      List.Pairwise (fun a b => stringLess a b = true)
        (EventsGo.geoJsonEventsValues q).encodedKeys) ∧
    ((createEventsApiUrl g).RawQuery = (eventsValues g).Encode ∧
      List.Pairwise (fun a b => stringLess a b = true) (eventsValues g).encodedKeys) ∧
    ((createCategoriesApiUrl c).RawQuery = (categoriesValues c).Encode ∧
      List.Pairwise (fun a b => stringLess a b = true) (categoriesValues c).encodedKeys) ∧
    List.Pairwise (fun a b => stringLess a b = true)
      ["bbox".toList, "days".toList, "end".toList, "limit".toList, "magID".toList,
       "magMax".toList, "magMin".toList, "source".toList, "start".toList,
       "status".toList] :=
  ⟨⟨rfl, Values.encodedKeys_strict _ (omit_empty_wellFormed q)⟩,
   ⟨rfl, Values.encodedKeys_strict _ (omit_empty_wellFormed q)⟩,
   ⟨rfl, Values.encodedKeys_strict _ (simplified_wellFormed g)⟩,
   ⟨rfl, Values.encodedKeys_strict _ (categories_wellFormed c)⟩,
   ten_keys_ascending⟩

/-! ## Theorems: the two builders of events.go side by side -/

theorem String_events_any (rawQuery : GoString) :
    URL.String ⟨"https".toList, "eonet.sci.gsfc.nasa.gov".toList, "/api/v3/events".toList,
        rawQuery⟩ =
      "https://eonet.sci.gsfc.nasa.gov/api/v3/events".toList ++
        (if rawQuery = [] then [] else '?' :: rawQuery) := by
  have hhost : escape "eonet.sci.gsfc.nasa.gov".toList .encodeHost =
      "eonet.sci.gsfc.nasa.gov".toList := by decide
  have hpath : escape "/api/v3/events".toList .encodePath = "/api/v3/events".toList := by
    decide
  have hstar : ¬ "/api/v3/events".toList = "*".toList := by decide
  unfold URL.String URL.EscapedPath
  simp only [hhost, hpath, hstar, if_false]
  by_cases h : rawQuery = [] <;> simp [h]

theorem String_geojson_any (rawQuery : GoString) :
    URL.String ⟨"https".toList, "eonet.sci.gsfc.nasa.gov".toList,
        "/api/v3/events/geojson".toList, rawQuery⟩ =
      "https://eonet.sci.gsfc.nasa.gov/api/v3/events".toList ++ "/geojson".toList ++
        (if rawQuery = [] then [] else '?' :: rawQuery) := by
  have hhost : escape "eonet.sci.gsfc.nasa.gov".toList .encodeHost =
      "eonet.sci.gsfc.nasa.gov".toList := by decide
  have hpath : escape "/api/v3/events/geojson".toList .encodePath =
      "/api/v3/events/geojson".toList := by
    decide
  have hstar : ¬ "/api/v3/events/geojson".toList = "*".toList := by decide
  unfold URL.String URL.EscapedPath
  simp only [hhost, hpath, hstar, if_false]
  by_cases h : rawQuery = [] <;> simp [h]

theorem omit_empty_url_eq (q : EventsGo.EventsQueryParameters) :
    EventsGo.createEventsApiUrl q =
      ⟨"https".toList, "eonet.sci.gsfc.nasa.gov".toList, "/api/v3/events".toList,
        (EventsGo.eventsValues q).Encode⟩ := rfl

theorem omit_empty_geo_url_eq (q : EventsGo.EventsQueryParameters) :
    EventsGo.createGeoJsonEventsApiUrl q =
      ⟨"https".toList, "eonet.sci.gsfc.nasa.gov".toList, "/api/v3/events/geojson".toList,
        (EventsGo.eventsValues q).Encode⟩ := rfl

/-- C16: for every parameter value the two builders of events.go give URLs with
the same scheme, host and encoded query, the paths `/api/v3/events` and
`/api/v3/events/geojson`; the GeoJSON URL string is the plain URL string with
`/geojson` inserted after the path, before the `?` of the query if there is
one. -/
theorem geojson_url_is_plain_url_with_suffix (q : EventsGo.EventsQueryParameters) :
    (EventsGo.createEventsApiUrl q).Scheme = (EventsGo.createGeoJsonEventsApiUrl q).Scheme ∧
    (EventsGo.createEventsApiUrl q).Host = (EventsGo.createGeoJsonEventsApiUrl q).Host ∧
    (EventsGo.createEventsApiUrl q).RawQuery =
      (EventsGo.createGeoJsonEventsApiUrl q).RawQuery ∧
    (EventsGo.createEventsApiUrl q).Path = "/api/v3/events".toList ∧
    (EventsGo.createGeoJsonEventsApiUrl q).Path = "/api/v3/events/geojson".toList ∧
    (EventsGo.createEventsApiUrl q).String =
      "https://eonet.sci.gsfc.nasa.gov/api/v3/events".toList ++
        (if (EventsGo.createEventsApiUrl q).RawQuery = [] then []
         else '?' :: (EventsGo.createEventsApiUrl q).RawQuery) ∧
    (EventsGo.createGeoJsonEventsApiUrl q).String =
      "https://eonet.sci.gsfc.nasa.gov/api/v3/events".toList ++ "/geojson".toList ++
        (if (EventsGo.createEventsApiUrl q).RawQuery = [] then []
         else '?' :: (EventsGo.createEventsApiUrl q).RawQuery) := by
  refine ⟨rfl, rfl, rfl, rfl, rfl, ?_, ?_⟩
  · rw [omit_empty_url_eq]
    exact String_events_any _
  · rw [omit_empty_geo_url_eq, omit_empty_url_eq]
    exact String_geojson_any _

theorem omit_empty_values_nil (q : EventsGo.EventsQueryParameters)
    (hSource : q.Source = []) (hStatus : q.Status = []) (hLimit : q.Limit = 0)
    (hDays : q.Days = 0) (hStart : q.Start = []) (hMagID : q.MagID = [])
    (hMagMin : q.MagMin = []) (hMagMax : q.MagMax = []) (hBbox : q.Bbox = []) :
    EventsGo.eventsValues q = [] := by
  unfold EventsGo.eventsValues
  simp [URL.Query, hSource, hStatus, hLimit, hDays, hStart, hMagID, hMagMin, hMagMax, hBbox]

/-- C17: when Source, Status, Start, MagID, MagMin, MagMax and Bbox are empty
and Limit and Days are 0 (End may be anything), the omit-empty builders give
URLs without query and without `?`: their strings are `baseEventsUrl` and
`baseGeoJsonEventsUrl`. -/
theorem no_parameters_gives_base_url (q : EventsGo.EventsQueryParameters)
    (hSource : q.Source = []) (hStatus : q.Status = []) (hLimit : q.Limit = 0)
    (hDays : q.Days = 0) (hStart : q.Start = []) (hMagID : q.MagID = [])
    (hMagMin : q.MagMin = []) (hMagMax : q.MagMax = []) (hBbox : q.Bbox = []) :
    (EventsGo.createEventsApiUrl q).RawQuery = [] ∧
    (EventsGo.createGeoJsonEventsApiUrl q).RawQuery = [] ∧
    (EventsGo.createEventsApiUrl q).String = EventsGo.baseEventsUrl ∧
    (EventsGo.createGeoJsonEventsApiUrl q).String = EventsGo.baseGeoJsonEventsUrl := by
  have hv := omit_empty_values_nil q hSource hStatus hLimit hDays hStart hMagID hMagMin
    hMagMax hBbox
  have henc : (EventsGo.eventsValues q).Encode = [] := by
    rw [hv]
    rfl
  refine ⟨?_, ?_, ?_, ?_⟩
  · rw [omit_empty_url_eq]
    exact henc
  · rw [omit_empty_geo_url_eq]
    exact henc
  · rw [omit_empty_url_eq, String_events_any, henc]
    rfl
  · rw [omit_empty_geo_url_eq, String_geojson_any, henc]
    rfl

theorem no_parameters_gives_base_url_witness :
    (({ End := "2021-02-01".toList } : EventsGo.EventsQueryParameters).Source = [] ∧
      ({ End := "2021-02-01".toList } : EventsGo.EventsQueryParameters).Limit = 0 ∧
      ({ End := "2021-02-01".toList } : EventsGo.EventsQueryParameters).Start = []) ∧
    (EventsGo.createEventsApiUrl { End := "2021-02-01".toList }).String =
      EventsGo.baseEventsUrl ∧
    (EventsGo.createGeoJsonEventsApiUrl { End := "2021-02-01".toList }).String =
      EventsGo.baseGeoJsonEventsUrl :=
  ⟨⟨rfl, rfl, rfl⟩,
   (no_parameters_gives_base_url { End := "2021-02-01".toList } rfl rfl rfl rfl rfl rfl rfl rfl
    rfl).2.2⟩

/-! ## Theorems: the decoding of categories -/

theorem decodeCategory_categoryJson (equalFold : GoString → GoString → Bool)
    (p : GoString × GoString) :
    decodeCategory equalFold {} (categoryJson p) = ({ Id := p.1, Title := p.2 }, none) := by
  rfl

theorem decodeCategoryItems_map (equalFold : GoString → GoString → Bool)
    (categories : List (GoString × GoString)) :
    decodeCategoryItems equalFold [] (categories.map categoryJson) =
      (categories.map fun p => ({ Id := p.1, Title := p.2 } : Category), none) := by
  induction categories with
  | nil => rfl
  | cons p rest ih =>
    simp only [List.map_cons, decodeCategoryItems, List.headD_nil, List.tail_nil, ih,
      decodeCategory_categoryJson]
    rfl

theorem categories_are_decoded {η σ : Type} (parse : GoString → Option Json)
    (equalFold : GoString → GoString → Bool) (decoders : FieldDecoders η σ)
    (body title link : GoString) (categories : List (GoString × GoString))
    (hbody : parse body = some (categoriesBody title link categories)) :
    Unmarshal parse equalFold decoders body =
      some (.ok { Title := title, Link := link,
                  Categories := categories.map fun p => { Id := p.1, Title := p.2 } }) := by
  unfold Unmarshal
  rw [hbody]
  have h0 : fieldIndex equalFold collectionTags "title".toList = some 0 := rfl
  have h2 : fieldIndex equalFold collectionTags "link".toList = some 2 := rfl
  have h4 : fieldIndex equalFold collectionTags "categories".toList = some 4 := rfl
  simp only [categoriesBody, decodeCollectionMembers, setCollectionField, h0, h2, h4,
    decodeString, saveError, decodeCategories, decodeCategoryItems_map]

theorem categories_are_decoded_witness :
    (fun _ => some (categoriesBody "EONET Categories".toList
        "https://eonet.sci.gsfc.nasa.gov/api/v3/categories".toList
        [("8".toList, "Wildfires".toList)]) : GoString → Option Json)
      "body".toList =
        some (categoriesBody "EONET Categories".toList
          "https://eonet.sci.gsfc.nasa.gov/api/v3/categories".toList
          [("8".toList, "Wildfires".toList)]) ∧
    Unmarshal
        (fun _ => some (categoriesBody "EONET Categories".toList
          "https://eonet.sci.gsfc.nasa.gov/api/v3/categories".toList
          [("8".toList, "Wildfires".toList)]))
        (fun a b => decide (a = b))
        (⟨fun _ _ => none, fun _ _ => none⟩ : FieldDecoders Unit Unit) "body".toList =
      some (.ok { Title := "EONET Categories".toList,
                  Link := "https://eonet.sci.gsfc.nasa.gov/api/v3/categories".toList,
                  Categories := [{ Id := "8".toList, Title := "Wildfires".toList }] }) :=
  ⟨rfl,
   categories_are_decoded
     (fun _ => some (categoriesBody "EONET Categories".toList
       "https://eonet.sci.gsfc.nasa.gov/api/v3/categories".toList
       [("8".toList, "Wildfires".toList)]))
     (fun a b => decide (a = b))
     (⟨fun _ _ => none, fun _ _ => none⟩ : FieldDecoders Unit Unit) "body".toList
     "EONET Categories".toList "https://eonet.sci.gsfc.nasa.gov/api/v3/categories".toList
     [("8".toList, "Wildfires".toList)] rfl⟩

/-- C14 (the code at the failing input): a body of the layers endpoint, whose
category `id` 8, `title` Wildfires holds its layers in an array, is not decoded.
The `Id` and the `Title` of the category are read as `8` and `Wildfires`, but
the array meets the field `Layers` of type `string`: the decoder saves an
`UnmarshalTypeError` and `json.Unmarshal` returns it, so that `queryLayersApi`
returns no Collection. -/
theorem layers_array_is_a_type_error {η σ : Type} (parse : GoString → Option Json)
    (equalFold : GoString → GoString → Bool) (decoders : FieldDecoders η σ)
    (hbody : parse layersBodyText = some layersBodyJson) :
    decodeCategory equalFold {} layersCategoryJson =
      ({ Id := "8".toList, Title := "Wildfires".toList }, some .UnmarshalTypeError) ∧
    Unmarshal parse equalFold decoders layersBodyText =
      some (.error .UnmarshalTypeError) := by
  refine ⟨rfl, ?_⟩
  unfold Unmarshal
  rw [hbody]
  rfl

theorem layers_array_is_a_type_error_witness :
    (fun s => if s = layersBodyText then some layersBodyJson else none :
        GoString → Option Json) layersBodyText = some layersBodyJson ∧
    Unmarshal (fun s => if s = layersBodyText then some layersBodyJson else none)
        (fun a b => decide (a = b))
        (⟨fun _ _ => none, fun _ _ => none⟩ : FieldDecoders Unit Unit) layersBodyText =
      some (.error .UnmarshalTypeError) :=
  ⟨if_pos rfl,
   (layers_array_is_a_type_error
      (fun s => if s = layersBodyText then some layersBodyJson else none)
      (fun a b => decide (a = b))
      (⟨fun _ _ => none, fun _ _ => none⟩ : FieldDecoders Unit Unit) (if_pos rfl)).2⟩

end Goeonet
